import Mathlib

/-!
A shallow embedding of the rule-evaluation engine of `c-name-style.py`, a
linter that checks C identifier naming conventions against a configurable
rule set, together with proofs about the embedded functions.

Modelling conventions used throughout this development:

* Python `re` pattern strings are represented by the regular expressions
  they compile to (`Regex` below).  The explicit empty pattern string `""`
  is represented by `Regex.eps`; an unresolved `$\x7bname\x7d` template
  placeholder is represented by `Regex.var name` (Python's
  `Template.safe_substitute` leaves an unknown placeholder in the pattern
  as literal text, which is what `Regex.var` matches when never
  substituted).  Joining pattern strings (`"".join(...)` over affix
  fragments) is modelled by concatenation of the denoted regexes, which is
  exact for fragments without a top-level alternation.
* Machine integers do not occur: all counts are `Nat`, configured pointer
  levels are `Int` (Python ints are unbounded).
* `clang.cindex` is an external collaborator; a declaration cursor is
  modelled by the record of the attributes the linter actually reads
  (`Decl`), a token by `Tok`, and the AST by the `CTree` tree.
* Mutation is modelled by explicit state passing: the in-place mutation of
  `rule.kinds` performed by `Processor._rule_applies` is returned as an
  updated rule, the `used` flags of ignore comments as an updated map, and
  the printed failure diagnostics as an explicit list.
-/

namespace CStyle

/-- Regular expressions: the sublanguage of Python `re` needed by the
configuration patterns of the linter.  `lit s` matches the literal string
`s` (the image of `re.escape`), `cls lo hi` a character range, `dot` any
character except a newline, and `var n` an unresolved template
placeholder, which matches its own literal spelling `$\x7bn\x7d`. -/
inductive Regex where
  | eps
  | lit (s : String)
  | chr (c : Char)
  | cls (lo hi : Char)
  | dot
  | cat (a b : Regex)
  | alt (a b : Regex)
  | star (a : Regex)
  | var (n : String)
deriving DecidableEq

/-- Remainders after matching the literal character list `cs` against a
prefix of `s`: a singleton on success, empty on failure. -/
def litRems : List Char → List Char → List (List Char)
  | [], s => [s]
  | _ :: _, [] => []
  | c :: cs, x :: xs => if x = c then litRems cs xs else []

/-- Structural size of a regex, used to compute a sufficient recursion
fuel for the backtracking matcher. -/
def Regex.size : Regex → Nat
  | .cat a b => a.size + b.size + 1
  | .alt a b => a.size + b.size + 1
  | .star a => a.size + 1
  | _ => 1

/-- Backtracking matcher: the list of possible remainders of `s` after
matching `r` against a prefix of `s`, in Python's backtracking priority
order (an alternation tries its left branch first, `star` is greedy and
never repeats an empty match).  `fuel` bounds the recursion depth;
`Regex.rems` supplies a sufficient amount. -/
def remsF : Nat → Regex → List Char → List (List Char)
  | 0, _, _ => []
  | _ + 1, .eps, s => [s]
  | _ + 1, .lit str, s => litRems str.data s
  | _ + 1, .chr c, s =>
      match s with
      | [] => []
      | x :: xs => if x = c then [xs] else []
  | _ + 1, .cls lo hi, s =>
      match s with
      | [] => []
      | x :: xs => if lo ≤ x ∧ x ≤ hi then [xs] else []
  | _ + 1, .dot, s =>
      match s with
      | [] => []
      | x :: xs => if x = '\n' then [] else [xs]
  | _ + 1, .var n, s => litRems ('$' :: '\x7b' :: n.data ++ ['\x7d']) s
  | fuel + 1, .cat a b, s => ((remsF fuel a s).map (remsF fuel b)).flatten
  | fuel + 1, .alt a b, s => remsF fuel a s ++ remsF fuel b s
  | fuel + 1, .star a, s =>
      (((remsF fuel a s).filter (fun t => t.length < s.length)).map
        (remsF fuel (.star a))).flatten ++ [s]

/-- All remainders of `s` after matching a prefix of it against `r`, with
a fuel that is sufficient for every pattern arising in this development. -/
def Regex.rems (r : Regex) (s : List Char) : List (List Char) :=
  remsF ((r.size + 1) * (s.length + 2)) r s

/-- Whether `re.fullmatch(r, s)` succeeds. -/
def reFullmatch (r : Regex) (s : String) : Bool :=
  (r.rems s.data).any (fun t => t.isEmpty)

/-- Model of `re.search("^" + r, s)` for a compound prefix pattern: the
anchor restricts the match to position 0, and the backtracking engine
returns the first match in priority order; the result is `match.end()`
(measured in characters). -/
def pfxSearchEnd (r : Regex) (s : String) : Option Nat :=
  (r.rems s.data).head?.map (fun rem => s.length - rem.length)

/-- Model of `re.search(r + "$", s)` for a compound suffix pattern:
`re.search` scans candidate start positions from the left, and the `$`
anchor forces the match to extend to the end of the string, so the result
is the least start position from which `r` matches the whole rest of the
string; the result is `match.start()`. -/
def sfxSearchStart (r : Regex) (s : String) : Option Nat :=
  (List.range (s.length + 1)).find? (fun i => reFullmatch r (String.mk (s.data.drop i)))

/-- Template substitution (`Template.safe_substitute` with the linter's
`SubstTemplate` brace syntax): each placeholder is replaced by its value
when present and left in place otherwise; replacement text is not
rescanned within the same pass. -/
def Regex.subst (env : List (String × Regex)) : Regex → Regex
  | .cat a b => .cat (a.subst env) (b.subst env)
  | .alt a b => .alt (a.subst env) (b.subst env)
  | .star a => .star (a.subst env)
  | .var n =>
      match env.lookup n with
      | some r => r
      | none => .var n
  | .eps => .eps
  | .lit s => .lit s
  | .chr c => .chr c
  | .cls lo hi => .cls lo hi
  | .dot => .dot

/-- Insert-or-replace on an association list, the model of a Python
dictionary assignment `d[k] = v`. -/
def insertReplace {α β : Type} [BEq α] (m : List (α × β)) (k : α) (v : β) : List (α × β) :=
  if m.any (fun p => p.1 == k) then m.map (fun p => if p.1 == k then (k, v) else p)
  else m ++ [(k, v)]

/-- Configured pointer selector: Python stores either an `int` (when
`section.getint` succeeds) or a `bool` (when it falls back to
`section.getboolean`). -/
inductive PtrSpec where
  | pbool (b : Bool)
  | pint (n : Int)
deriving DecidableEq

/-- A `parent_match` pattern: the regex together with a model of its
`name` capture group.  For a fixed pattern, the text captured by the
group is a function of the fully matched parent name, modelled by
`extractName`; `extractName = none` models a pattern without a group
called `name` (the `IndexError` fallback path of the source). -/
structure PMatch where
  re : Regex
  extractName : Option (String → String)

/-- One configuration rule as seen by the processor, the `Rule` dataclass
of the source with its pattern strings replaced by the regexes they
compile to.  Field renamings forced by Lean: `prefix` is `pfx`, `suffix`
is `sfx`, `rule` is `bodyRule`, `allow_rule` is `allowRule`,
`parent_match` is `parentMatch`.  An affix field holding `some Regex.eps`
models the explicitly empty pattern string. -/
structure PRule where
  name : String
  kinds : Option (List String)
  visibility : Option (List String)
  types : Option (List Regex)
  pointer : Option PtrSpec
  parentMatch : Option PMatch
  pfx : Option Regex
  sfx : Option Regex
  bodyRule : Option Regex
  allowRule : Option Regex

/-- The cursor kinds distinguished by the linter. -/
inductive CursorKind where
  | parmDecl
  | varDecl
  | functionDecl
  | structDecl
  | unionDecl
  | enumDecl
  | typedefDecl
  | fieldDecl
  | enumConstantDecl
  | translationUnit
  | otherKind
deriving DecidableEq

/-- The shape of a clang type as far as the linter reads it: a chain of
pointers over a non-pointer type (`cursor.type.kind == TypeKind.POINTER`
plus `get_pointee`). -/
inductive CType where
  | ptr (t : CType)
  | nonPtr
deriving DecidableEq

/-- Number of pointer layers, the unwrapping loop of
`Processor._process_node` (and `_rule_applies` via its argument). -/
def CType.pointerCount : CType → Nat
  | .ptr t => t.pointerCount + 1
  | .nonPtr => 0

/-- The attributes of a declaration cursor that the rule-evaluation
engine reads: kind, identifier spelling, spelled type, the type shape
(`ctype`), the canonical underlying type shape for typedefs, the source
location key, and the semantic parent's spelling and anonymity (used for
enum constants). -/
structure Decl where
  kind : CursorKind
  spelling : String
  typeSpelling : String
  ctype : CType
  underlyingCanonical : CType
  file : String
  line : Nat
  parentSpelling : String
  parentAnonymous : Bool

/-- `Processor._KIND_EXPANSION`. -/
def KIND_EXPANSION : List (String × List String) :=
  [("tag", ["struct_tag", "enum_tag", "union_tag"]),
   ("typedef", ["struct_typedef", "enum_typedef", "union_typedef", "function_typedef",
                "scalar_typedef"]),
   ("member", ["struct_member", "union_member"])]

/-- Python `list.remove`: delete the first occurrence of `x`. -/
def pyRemoveFirst : List String → String → List String
  | [], _ => []
  | y :: ys, x => if y = x then ys else y :: pyRemoveFirst ys x

/-- The alias-expansion loop of `Processor._rule_applies`: CPython's
`for rule_kind in rule_kinds` iterates by increasing index over the live
list while the loop body mutates it with `extend` (append the expansion)
followed by `remove` (delete the first occurrence of the alias).  `fuel`
bounds the iteration count; `expandKinds` supplies an amount sufficient
for the loop, which advances its index by one per step while the list
grows by at most four entries per alias occurrence. -/
def kindLoop : Nat → List String → Nat → List String
  | 0, l, _ => l
  | fuel + 1, l, i =>
      match l.get? i with
      | none => l
      | some x =>
          match KIND_EXPANSION.lookup x with
          | some exp => kindLoop fuel (pyRemoveFirst (l ++ exp) x) (i + 1)
          | none => kindLoop fuel l (i + 1)

/-- The full alias expansion performed on `rule.kinds` by one call of
`Processor._rule_applies`. -/
def expandKinds (l : List String) : List String :=
  kindLoop (5 * l.length + 5) l 0

/-- The pointer-level selector test of `Processor._rule_applies`,
including Python's `True == 1` / `False == 0` behaviour in the second
disjunct `rule.pointer == pointer_level`. -/
def pointerOk (spec : PtrSpec) (d : Nat) : Bool :=
  match spec with
  | .pbool b => (b == decide (0 < d)) || (((if b then (1 : Int) else 0) : Int) == (d : Int))
  | .pint n => n == (d : Int)

/-- The selector checks of `Processor._rule_applies` that follow the
kind check: pointer level, type patterns, visibility, and the
anonymous-parent guard for `parent_match`. -/
def ruleChecks (decl : Decl) (rule : PRule) (visibility : Option String)
    (pointerLevel : Option Nat) : Bool :=
  (match pointerLevel, rule.pointer with
   | some d, some spec => pointerOk spec d
   | _, _ => true) &&
  (match rule.types with
   | some ts => ts.any (fun t => reFullmatch t decl.typeSpelling)
   | none => true) &&
  (match visibility, rule.visibility with
   | some v, some vs => vs.contains v
   | _, _ => true) &&
  !(rule.parentMatch.isSome && decl.kind == .enumConstantDecl && decl.parentAnonymous)

/-- `Processor._rule_applies`.  In Python, `rule_kinds = rule.kinds`
aliases the stored list, so the alias expansion permanently rewrites the
stored rule; the updated rule is returned alongside the boolean. -/
def ruleApplies (decl : Decl) (rule : PRule) (configKind : String)
    (visibility : Option String) (pointerLevel : Option Nat) : Bool × PRule :=
  match rule.kinds with
  | some ks =>
      let ks' := expandKinds ks
      let rule' := { rule with kinds := some ks' }
      if ks'.contains configKind then
        (ruleChecks decl rule' visibility pointerLevel, rule')
      else
        (false, rule')
  | none => (ruleChecks decl rule visibility pointerLevel, rule)

/-- The ignore-comment registry as consulted by `_test_rule`: a map from
`(file, line)` keys (the `f"{file}:{line}"` strings of the source) to the
mutable `used` flag of the registered `IgnoreComment`. -/
abbrev IgnoreMap := List ((String × Nat) × Bool)

/-- The key `f"{cursor.location.file.name}:{cursor.location.line}"`. -/
def Decl.ignoreKey (d : Decl) : String × Nat := (d.file, d.line)

/-- `self._ignore_comments.get(ignore_key)`, reduced to the `used` flag of
the entry (its only mutable state). -/
def ignoreLookup (m : IgnoreMap) (k : String × Nat) : Option Bool := m.lookup k

/-- Set the `used` flag of the entry at `k` (the effect of
`ignore_comment.used = True` through the shared reference). -/
def setUsed (m : IgnoreMap) (k : String × Nat) : IgnoreMap :=
  m.map (fun p => if p.1 == k then (p.1, true) else p)

/-- The unconditional failure messages printed by `_test_rule`: the
"Name ... is missing prefix/suffix ..." print of `test_affix_rules` and
the "Name ... fails rule ..." print of the body test. -/
inductive Diag where
  | missingAffix (isPfx : Bool) (ruleNames : List String)
  | failsRule (ruleName : String)
deriving DecidableEq

/-- The mutable state of one `_test_rule` call: the progressively
stripped identifier `name_without_prefix_suffix`, the tri-state `success`
variable (`some true` = `True`, `some false` = `False`, `none` = `None`),
whether `ignore_comment.used` has been set, and the failure diagnostics
printed so far. -/
structure AffixSt where
  nws : String
  success : Option Bool
  marked : Bool
  diags : List Diag
deriving DecidableEq

/-- The prefix/suffix accessor `(lambda x: x.prefix) / (lambda x: x.suffix)`
of `test_affix_rules`; the `getD` default is unreachable because a rule is
only collected into an affix list when the field is truthy. -/
def affixOf (isPfx : Bool) (r : PRule) : Regex :=
  (if isPfx then r.pfx else r.sfx).getD .eps

/-- Concatenation of the expanded affix fragments
(`"".join(...)` over pattern strings, as regexes). -/
def joinRegex : List Regex → Regex
  | [] => .eps
  | [r] => r
  | r :: rs => .cat r (joinRegex rs)

/-- The ruleset-level placeholder table (the `placeholders` configuration
section), as regex fragments. -/
structure Ctx where
  placeholders : List (String × Regex)

/-- `Processor._sub_placeholders`: substitute the ruleset placeholder
table first, then the per-declaration dynamic variables. -/
def subPlaceholders (ctx : Ctx) (template : Regex) (vars : List (String × Regex)) : Regex :=
  let result := if ctx.placeholders.length > 0 then template.subst ctx.placeholders else template
  result.subst vars

/-- The expanded compound affix pattern built by `test_affix_rules`. -/
def expandedAffix (ctx : Ctx) (vars : List (String × Regex)) (isPfx : Bool)
    (affixRules : List PRule) : Regex :=
  joinRegex (affixRules.map (fun r => subPlaceholders ctx (affixOf isPfx r) vars))

/-- The inner function `test_affix_rules` of `Processor._test_rule`.
Returns the `expanded_affix` result together with the updated state.  On
a failed match with an ignore comment present, the comment is marked used
(`marked`); with no comment present, a failure is printed and `success`
is overwritten with `False`.  On a successful match, the matched span is
stripped from the identifier. -/
def testAffixRules (ctx : Ctx) (vars : List (String × Regex)) (ignorePresent : Bool)
    (affixRules : List PRule) (isPfx : Bool) (st : AffixSt) : Option Regex × AffixSt :=
  match affixRules with
  | [] => (none, st)
  | _ :: _ =>
      let expanded := expandedAffix ctx vars isPfx affixRules
      let m := if isPfx then pfxSearchEnd expanded st.nws else sfxSearchStart expanded st.nws
      match m with
      | none =>
          if ignorePresent then (some expanded, { st with marked := true })
          else
            (some expanded,
             { st with success := some false,
                       diags := st.diags ++ [.missingAffix isPfx (affixRules.map (fun r => r.name))] })
      | some idx =>
          (some expanded, { st with nws := if isPfx then st.nws.drop idx else st.nws.take idx })

/-- Python errors that the modelled code can raise: the `assert`
statements of `Processor._test_rule`, and the uncaught `AttributeError`
of `Processor._process_tokens` (evaluating `("" or None).strip()` on a
line comment whose directive text is empty). -/
inductive PyErr where
  | assertionError
  | attributeError
deriving DecidableEq

/-- Helper for the `parent:upper-snake` variable: the tail of
`re.sub(r"(?<!^)(?=[A-Z])", "_", s)`, inserting an underscore before
every upper-case ASCII letter. -/
def usTail : List Char → List Char
  | [] => []
  | c :: cs => (if 'A' ≤ c ∧ c ≤ 'Z' then ['_', c] else [c]) ++ usTail cs

/-- `re.sub(r"(?<!^)(?=[A-Z])", "_", s).upper()`. -/
def upperSnake (s : String) : String :=
  match s.data with
  | [] => ""
  | c :: cs => String.mk ((c :: usTail cs).map Char.toUpper)

/-- The enum-constant block of `Processor._test_rule` (parent-name
capture): for an enum constant, compute the (possibly `parent_match`
rewritten) parent name and assign the `parent` and `parent:upper-snake`
variables; the values go through `re.escape`, hence `Regex.lit`.  The
source asserts that the parent is not anonymous when `parent_match` is
set. -/
def parentVars (decl : Decl) (rule : PRule) (vars : List (String × Regex)) :
    Except PyErr (List (String × Regex)) :=
  if decl.kind == .enumConstantDecl then
    match rule.parentMatch with
    | some pm =>
        if decl.parentAnonymous then .error .assertionError
        else
          let pn :=
            if reFullmatch pm.re decl.parentSpelling then
              match pm.extractName with
              | some f => f decl.parentSpelling
              | none => decl.parentSpelling
            else decl.parentSpelling
          .ok (insertReplace (insertReplace vars "parent" (.lit pn))
                "parent:upper-snake" (.lit (upperSnake pn)))
    | none =>
        let pn := decl.parentSpelling
        .ok (insertReplace (insertReplace vars "parent" (.lit pn))
              "parent:upper-snake" (.lit (upperSnake pn)))
  else .ok vars

/-- Python `rule.rule or rule.allow_rule` on pattern fields: the empty
pattern string (`Regex.eps`) is falsy. -/
def pyOrPat (a b : Option Regex) : Option Regex :=
  match a with
  | some p => if p = .eps then b else some p
  | none => b

/-- Result of one `Processor._test_rule` call: the tri-state verdict
(`True` / `False` / `None` of the source), the updated ignore registry,
the failure diagnostics printed, and the updated `substitute_vars`
dictionary (which the source mutates in place across rules). -/
structure TRResult where
  verdict : Option Bool
  ign : IgnoreMap
  diags : List Diag
  vars : List (String × Regex)

/-- The affix-testing phase at the start of `Processor._test_rule`
(lines 264-298 of the source): starting from the fresh state, test the
compound prefix and then the compound suffix, each skipped entirely when
the current rule's own corresponding affix field is the explicit empty
string (Python `rule.prefix != ""`; `None` is not the empty string, so
an absent field does not skip). -/
def affixStage (ctx : Ctx) (vars : List (String × Regex)) (ignorePresent : Bool)
    (rule : PRule) (pfxRules sfxRules : List PRule) (name : String) : AffixSt :=
  let st0 : AffixSt := { nws := name, success := some true, marked := false, diags := [] }
  let st1 := if rule.pfx ≠ some Regex.eps then
               (testAffixRules ctx vars ignorePresent pfxRules true st0).2
             else st0
  if rule.sfx ≠ some Regex.eps then
    (testAffixRules ctx vars ignorePresent sfxRules false st1).2
  else st1

/-- The body/allow decision at the end of `Processor._test_rule`
(lines 339-356): on a failed full match the failure is suppressed when an
ignore comment is present; otherwise a required rule records a failure
(`success = False`) while an allow rule yields `None` to continue with
later rules. -/
def bodyStage (ignorePresent : Bool) (hasBody : Bool) (ruleName : String)
    (matched : Bool) (st : AffixSt) : AffixSt :=
  if matched then st
  else if ignorePresent then { st with marked := true }
  else if hasBody then
    { st with success := some false, diags := st.diags ++ [.failsRule ruleName] }
  else { st with success := none }

/-- `Processor._test_rule`.  The ignore comment is looked up once at
entry; the affix phase is followed by the enum-constant parent block
extending the variable table; finally the placeholder-expanded body or
allow pattern is full-matched against the stripped identifier.  The two
`assert` statements are modelled as `PyErr.assertionError`. -/
def testRule (ctx : Ctx) (decl : Decl) (rule : PRule) (pfxRules sfxRules : List PRule)
    (vars : List (String × Regex)) (ign : IgnoreMap) : Except PyErr TRResult :=
  let ignorePresent := (ignoreLookup ign decl.ignoreKey).isSome
  let st2 := affixStage ctx vars ignorePresent rule pfxRules sfxRules decl.spelling
  match parentVars decl rule vars with
  | .error e => .error e
  | .ok vars' =>
      match pyOrPat rule.bodyRule rule.allowRule with
      | none => .error .assertionError
      | some ruleText =>
          let st3 := bodyStage ignorePresent rule.bodyRule.isSome rule.name
                       (reFullmatch (subPlaceholders ctx ruleText vars') st2.nws) st2
          .ok { verdict := st3.success,
                ign := if st3.marked then setUsed ign decl.ignoreKey else ign,
                diags := st3.diags,
                vars := vars' }

/-- The affix-collection step of the rule loop in
`Processor._process_node`: a matching rule is appended to the prefix
(suffix) accumulation exactly when its affix field is truthy (present and
not the empty string). -/
def appendAffixRules (rule : PRule) (pfxRules sfxRules : List PRule) :
    List PRule × List PRule :=
  let p := match rule.pfx with
    | some r => if r = .eps then pfxRules else pfxRules ++ [rule]
    | none => pfxRules
  let s := match rule.sfx with
    | some r => if r = .eps then sfxRules else sfxRules ++ [rule]
    | none => sfxRules
  (p, s)

/-- The rule loop of `Processor._process_node`: iterate the rules in
declared order, mutate each rule's kinds via `_rule_applies`, collect
affix rules, call `_test_rule` for rules carrying a body or allow
pattern, and return the first non-`None` result (`True` when the loop
runs out of rules).  The returned rule list is the rule set after the
in-place mutations of this evaluation. -/
def ruleLoop (ctx : Ctx) (decl : Decl) (configKind : String) (visibility : Option String)
    (pointerLevel : Option Nat) :
    List (String × Regex) → List PRule → List PRule → List PRule → List PRule →
    IgnoreMap → List Diag → Except PyErr (Bool × List PRule × IgnoreMap × List Diag)
  | _, [], _, _, acc, ign, ds => .ok (true, acc.reverse, ign, ds)
  | vars, r :: rest, pfxRules, sfxRules, acc, ign, ds =>
      match ruleApplies decl r configKind visibility pointerLevel with
      | (applies, r') =>
          if applies then
            let (pfxRules', sfxRules') := appendAffixRules r' pfxRules sfxRules
            if r'.bodyRule.isSome || r'.allowRule.isSome then
              match testRule ctx decl r' pfxRules' sfxRules' vars ign with
              | .error e => .error e
              | .ok res =>
                  match res.verdict with
                  | some b => .ok (b, acc.reverse ++ r' :: rest, res.ign, ds ++ res.diags)
                  | none =>
                      ruleLoop ctx decl configKind visibility pointerLevel res.vars rest
                        pfxRules' sfxRules' (r' :: acc) res.ign (ds ++ res.diags)
            else
              ruleLoop ctx decl configKind visibility pointerLevel vars rest
                pfxRules' sfxRules' (r' :: acc) ign ds
          else
            ruleLoop ctx decl configKind visibility pointerLevel vars rest
              pfxRules sfxRules (r' :: acc) ign ds

/-- The pointer-level computation of `Processor._process_node`: only
variables, parameters, typedefs and fields get a level; a typedef's level
is counted on its canonical underlying type. -/
def pointerLevelOf (decl : Decl) : Option Nat :=
  if decl.kind == .varDecl || decl.kind == .parmDecl || decl.kind == .typedefDecl
      || decl.kind == .fieldDecl then
    some (CType.pointerCount
      (if decl.kind == .typedefDecl then decl.underlyingCanonical else decl.ctype))
  else none

/-- The regex `[a-z][a-zA-Z0-9]*` assigned to `case:camel`. -/
def caseCamel : Regex :=
  .cat (.cls 'a' 'z') (.star (.alt (.alt (.cls 'a' 'z') (.cls 'A' 'Z')) (.cls '0' '9')))

/-- The regex `[A-Z][a-zA-Z0-9]*` assigned to `case:pascal`. -/
def casePascal : Regex :=
  .cat (.cls 'A' 'Z') (.star (.alt (.alt (.cls 'a' 'z') (.cls 'A' 'Z')) (.cls '0' '9')))

/-- The regex `[a-z]([a-z0-9_]*[a-z0-9])?` assigned to `case:snake`. -/
def caseSnake : Regex :=
  .cat (.cls 'a' 'z')
    (.alt (.cat (.star (.alt (.alt (.cls 'a' 'z') (.cls '0' '9')) (.chr '_')))
                (.alt (.cls 'a' 'z') (.cls '0' '9')))
          .eps)

/-- The regex `[A-Z]([A-Z0-9_]*[A-Z0-9])?` assigned to `case:upper-snake`. -/
def caseUpperSnake : Regex :=
  .cat (.cls 'A' 'Z')
    (.alt (.cat (.star (.alt (.alt (.cls 'A' 'Z') (.cls '0' '9')) (.chr '_')))
                (.alt (.cls 'A' 'Z') (.cls '0' '9')))
          .eps)

/-- The part of `Path(file).stem` needed here: the final path component
without its last dotted suffix. -/
def stemOf (file : String) : String :=
  let name := (file.splitOn "/").getLastD file
  let dotRev := name.data.reverse.takeWhile (fun c => c ≠ '.')
  if dotRev.length = name.data.length ∨ dotRev.length + 1 = name.data.length
      ∨ dotRev.length = 0 then name
  else String.mk (name.data.take (name.data.length - dotRev.length - 1))

/-- The `substitute_vars` dictionary built by `Processor._process_node`:
escaped file stem, the four case regexes, and the stringified pointer
level (`str(None) = "None"` for kinds without one). -/
def baseVars (decl : Decl) : List (String × Regex) :=
  [("filename", .lit (stemOf decl.file)),
   ("case:camel", caseCamel),
   ("case:pascal", casePascal),
   ("case:snake", caseSnake),
   ("case:upper-snake", caseUpperSnake),
   ("pointer-level",
    .lit (match pointerLevelOf decl with | some n => toString n | none => "None"))]

/-- The rule-evaluation part of `Processor._process_node`, taking the
classification result `(config_kind, visibility)` of `_get_config_kind`
as an input (classification itself reads only external clang state). -/
def processNodeCore (ctx : Ctx) (rules : List PRule) (decl : Decl) (configKind : String)
    (visibility : Option String) (ign : IgnoreMap) :
    Except PyErr (Bool × List PRule × IgnoreMap × List Diag) :=
  ruleLoop ctx decl configKind visibility (pointerLevelOf decl) (baseVars decl)
    rules [] [] [] ign []

/-- The pass/fail verdict of a node evaluation (`none` on a Python
exception). -/
def verdictOf (r : Except PyErr (Bool × List PRule × IgnoreMap × List Diag)) : Option Bool :=
  match r with
  | .ok (b, _, _, _) => some b
  | .error _ => none

/-- The failure diagnostics printed during a node evaluation. -/
def diagsOf (r : Except PyErr (Bool × List PRule × IgnoreMap × List Diag)) : List Diag :=
  match r with
  | .ok (_, _, _, ds) => ds
  | .error _ => []

/-- Python whitespace as recognised by `str.strip`, `\s`, and `int()`. -/
def isPySpace (c : Char) : Bool :=
  c == ' ' || c == '\t' || c == '\n' || c == '\r' || c == '\x0b' || c == '\x0c'

/-- Python `str.strip()`. -/
def pyStrip (s : String) : String :=
  String.mk (((s.data.dropWhile isPySpace).reverse.dropWhile isPySpace).reverse)

/-- Python `str.lower()` on the ASCII configuration tokens at issue. -/
def lowerStr (s : String) : String := String.mk (s.data.map Char.toLower)

def isAsciiDigit (c : Char) : Bool := '0' ≤ c && c ≤ '9'

/-- Digit accumulation for Python `int(str)`, allowing single underscores
between digits. -/
def digitsGo : Nat → List Char → Option Nat
  | acc, [] => some acc
  | acc, '_' :: rest =>
      match rest with
      | d :: rest' =>
          if isAsciiDigit d then digitsGo (acc * 10 + (d.toNat - 48)) rest' else none
      | [] => none
  | acc, d :: rest =>
      if isAsciiDigit d then digitsGo (acc * 10 + (d.toNat - 48)) rest else none

/-- Python `int(str)` for decimal literals: optional surrounding
whitespace, an optional sign, then digits with optional single
underscores between them; `none` models the `ValueError`. -/
def pyParseInt (s : String) : Option Int :=
  match (pyStrip s).data with
  | '+' :: d :: rest =>
      if isAsciiDigit d then (digitsGo (d.toNat - 48) rest).map Int.ofNat else none
  | '-' :: d :: rest =>
      if isAsciiDigit d then (digitsGo (d.toNat - 48) rest).map (fun n => -(n : Int)) else none
  | d :: rest =>
      if isAsciiDigit d then (digitsGo (d.toNat - 48) rest).map Int.ofNat else none
  | [] => none

/-- `configparser.ConfigParser.BOOLEAN_STATES` (looked up on the
lower-cased value). -/
def BOOLEAN_STATES : List (String × Bool) :=
  [("1", true), ("yes", true), ("true", true), ("on", true),
   ("0", false), ("no", false), ("false", false), ("off", false)]

/-- One raw configuration section: its name and its (already
option-normalised) field map, as delivered by `ConfigParser`. -/
structure RawSection where
  name : String
  fields : List (String × String)
deriving DecidableEq

/-- `section.get(key)` (fallback `None` on a missing option). -/
def RawSection.get (s : RawSection) (k : String) : Option String := s.fields.lookup k

/-- The errors `RuleSet.__init__` can raise: the two explicit
`Exception`s naming the offending section, and the `ValueError` escaping
from `section.getboolean` when the pointer field is neither an integer
nor a recognised boolean token (Python message `"Not a boolean: <value>"`,
which does not mention the section). -/
inductive LoadErr where
  | noRule (sectionName : String)
  | bothRules (sectionName : String)
  | notABoolean (value : String)
deriving DecidableEq

/-- Whether a load error names a given section in its message. -/
def LoadErr.namesSection : LoadErr → String → Bool
  | .noRule n, s => n == s
  | .bothRules n, s => n == s
  | .notABoolean _, _ => false

/-- A rule as stored by `RuleSet.__init__`, with the raw string-valued
fields (`prefix` is `pfx`, `suffix` is `sfx`, `allow-rule` is
`allowRule`, `parent_match` is `parentMatch`). -/
structure RawRule where
  name : String
  kinds : Option (List String)
  visibility : Option (List String)
  types : Option (List String)
  pointer : Option PtrSpec
  parentMatch : Option String
  pfx : Option String
  sfx : Option String
  rule : Option String
  allowRule : Option String
deriving DecidableEq

/-- The loaded rule set: rules in configuration order plus the
placeholder table with its `p:` key prefix. -/
structure RawRuleSet where
  rules : List RawRule
  placeholders : List (String × String)
deriving DecidableEq

/-- The pointer-field parse of `RuleSet.__init__`:
`section.getint("pointer")` first, falling back to
`section.getboolean("pointer")` on `ValueError`; a missing option yields
`None`, a second `ValueError` escapes. -/
def getPointer (s : RawSection) : Except LoadErr (Option PtrSpec) :=
  match s.get "pointer" with
  | none => .ok none
  | some v =>
      match pyParseInt v with
      | some n => .ok (some (.pint n))
      | none =>
          match BOOLEAN_STATES.lookup (lowerStr v) with
          | some b => .ok (some (.pbool b))
          | none => .error (.notABoolean v)

/-- A comma-separated list field, split and stripped. -/
def splitField (v : String) : List String := (v.splitOn ",").map pyStrip

/-- The part of the loading loop body that follows the pointer parse:
read the remaining fields and enforce that some of
rule/allow-rule/prefix/suffix is present and that rule and allow-rule are
not both present. -/
def loadSectionTail (s : RawSection) (ptr : Option PtrSpec) : Except LoadErr RawRule :=
  if s.get "rule" = none ∧ s.get "allow-rule" = none ∧ s.get "prefix" = none
      ∧ s.get "suffix" = none then
    .error (.noRule s.name)
  else if s.get "rule" ≠ none ∧ s.get "allow-rule" ≠ none then
    .error (.bothRules s.name)
  else
    .ok { name := s.name, kinds := (s.get "kind").map splitField,
          visibility := (s.get "visibility").map splitField,
          types := (s.get "type").map splitField,
          pointer := ptr, parentMatch := s.get "parent_match", pfx := s.get "prefix",
          sfx := s.get "suffix", rule := s.get "rule", allowRule := s.get "allow-rule" }

/-- The per-section body of the loading loop of `RuleSet.__init__`:
parse the pointer field (which can raise), then the rest. -/
def loadSection (s : RawSection) : Except LoadErr RawRule :=
  match getPointer s with
  | .error e => .error e
  | .ok ptr => loadSectionTail s ptr

/-- The loading loop of `RuleSet.__init__` over the configuration
sections: the reserved `placeholders` section replaces the placeholder
table (keys prefixed with `p:`), every other section is parsed into a
rule; the first failing section aborts the load. -/
def loadGo : List RawSection → List RawRule → List (String × String) →
    Except LoadErr RawRuleSet
  | [], rules, ph => .ok { rules := rules.reverse, placeholders := ph }
  | s :: rest, rules, ph =>
      if s.name == "placeholders" then
        loadGo rest rules (s.fields.map (fun p => ("p:" ++ p.1, p.2)))
      else
        match loadSection s with
        | .error e => .error e
        | .ok r => loadGo rest (r :: rules) ph

/-- `RuleSet.__init__` as a function of the parsed configuration. -/
def load (sections : List RawSection) : Except LoadErr RawRuleSet :=
  loadGo sections [] []

/-- Whether a load result is an error. -/
def isLoadErr {α : Type} (r : Except LoadErr α) : Bool :=
  match r with
  | .error _ => true
  | .ok _ => false

/-- The conditions under which `RuleSet.__init__` rejects a section: an
unparsable pointer field, all of rule/allow-rule/prefix/suffix missing,
or both rule and allow-rule present. -/
def sectionViolates (s : RawSection) : Bool :=
  (match s.get "pointer" with
   | some v => (pyParseInt v).isNone && (BOOLEAN_STATES.lookup (lowerStr v)).isNone
   | none => false)
  || ((s.get "rule").isNone && (s.get "allow-rule").isNone && (s.get "prefix").isNone
      && (s.get "suffix").isNone)
  || ((s.get "rule").isSome && (s.get "allow-rule").isSome)

/-- The constraints every successfully loaded rule satisfies. -/
def ruleConstraintsOk (r : RawRule) : Bool :=
  (r.rule.isSome || r.allowRule.isSome || r.pfx.isSome || r.sfx.isSome)
  && !(r.rule.isSome && r.allowRule.isSome)

/-- Token kinds distinguished by the pre-pass. -/
inductive TokKind where
  | comment
  | otherTok
deriving DecidableEq

/-- A lexical token of the translation unit: kind, spelling, and source
extent (start and end position in its file). -/
structure Tok where
  kind : TokKind
  spelling : String
  file : String
  line : Nat
  column : Nat
  endLine : Nat
  endColumn : Nat
deriving DecidableEq

/-- Extent equality (`tokens_before[0].extent == token.extent`). -/
def extentEq (a b : Tok) : Bool :=
  a.file == b.file && a.line == b.line && a.column == b.column
    && a.endLine == b.endLine && a.endColumn == b.endColumn

/-- The captured group of the line-comment alternative of
`Processor._COMMENT_REGEX` (`//\s*c-name-style\s+(.*)` as a full match):
the raw `match.group(1)` text, possibly empty.  The greedy `\s+` moves
all the whitespace after the literal out of the group, and `.` does not
match a newline. -/
def lineCommentGroup (cs : List Char) : Option String :=
  if cs.take 2 = ['/', '/'] then
    let r1 := (cs.drop 2).dropWhile isPySpace
    if List.isPrefixOf "c-name-style".data r1 then
      match r1.drop 12 with
      | c :: r2 =>
          if isPySpace c then
            let v := r2.dropWhile isPySpace
            if v.contains '\n' then none else some (String.mk v)
          else none
      | [] => none
    else none
  else none

/-- The captured group of the block-comment alternative of
`Processor._COMMENT_REGEX` (`/\*\s*c-name-style\s+(.*)\*/` as a full
match): the comment body must end in `*/` and the raw `match.group(2)`
is the (greedy, newline-free) text before that closing delimiter. -/
def blockCommentGroup (cs : List Char) : Option String :=
  if cs.take 2 = ['/', '*'] then
    let r1 := (cs.drop 2).dropWhile isPySpace
    if List.isPrefixOf "c-name-style".data r1 then
      match r1.drop 12 with
      | c :: r2 =>
          if isPySpace c then
            let v := r2.dropWhile isPySpace
            if 2 ≤ v.length ∧ v.drop (v.length - 2) = ['*', '/']
              ∧ ¬ (v.take (v.length - 2)).contains '\n' then
              some (String.mk (v.take (v.length - 2)))
            else none
          else none
      | [] => none
    else none
  else none

/-- Lines 439-441 of the source: full-match `_COMMENT_REGEX` (the
alternation tries the line form first, so at most one group is set) and
compute `(match.group(1) or match.group(2)).strip()`.  A line comment
with an empty group makes Python evaluate `("" or None).strip()`, an
uncaught `AttributeError` that aborts the whole run; a block comment
with an empty group yields `None or ""` which strips to the empty
string.  `.ok none` is the no-match (unrecognised comment warning)
path. -/
def commentDirective (s : String) : Except PyErr (Option String) :=
  match lineCommentGroup s.data with
  | some g1 =>
      if g1 = "" then .error .attributeError
      else .ok (some (pyStrip g1))
  | none =>
      match blockCommentGroup s.data with
      | some g2 => .ok (some (pyStrip g2))
      | none => .ok none

/-- Model of `translation_unit.get_tokens(extent=span_before)` for the
zero-width extent at `(line, 1)` used by `Processor._process_tokens`:
libclang starts its raw lexer at that position, always emits the first
token found at or after it, and stops as soon as the lexer position
passes the extent end, so the result is the first token of the stream
located at or after the start of the line (and nothing more). -/
def tokensBefore (tus : List Tok) (file : String) (line : Nat) : List Tok :=
  match tus.find? (fun t => t.file == file && line ≤ t.line) with
  | some t => [t]
  | none => []

/-- The line-keying logic of `Processor._process_tokens`: a suppression
comment is keyed by the next line when the zero-width extent at column 1
of its line yields no token or only the comment itself, and by its own
line otherwise. -/
def ignoreKeyLine (tus : List Tok) (t : Tok) : Nat :=
  let before := tokensBefore tus t.file t.line
  if before.length == 0 || (before.length == 1 && extentEq (before.headD t) t) then
    t.line + 1
  else t.line

/-- A registered `IgnoreComment` (its token and `used` flag). -/
structure IgnComment where
  tok : Tok
  used : Bool
deriving DecidableEq

/-- The registry built by the token pre-pass. -/
abbrev IgnRegistry := List ((String × Nat) × IgnComment)

/-- One step of the token pre-pass loop: register an `IgnoreComment` for
a comment token whose directive is `ignore`, keyed by file and the line
computed by `ignoreKeyLine` (a Python dictionary assignment, so a later
comment with the same key replaces the earlier entry); a comment whose
directive computation raises aborts the run. -/
def ptStep (tus : List Tok) (m : IgnRegistry) (t : Tok) : Except PyErr IgnRegistry :=
  if t.kind == .comment then
    match commentDirective t.spelling with
    | .error e => .error e
    | .ok (some v) =>
        if v == "ignore" then
          .ok (insertReplace m (t.file, ignoreKeyLine tus t) { tok := t, used := false })
        else .ok m
    | .ok none => .ok m
  else .ok m

/-- The token loop of `Processor._process_tokens`, aborting at the first
raising comment. -/
def ptGo (tus : List Tok) : List Tok → IgnRegistry → Except PyErr IgnRegistry
  | [], m => .ok m
  | t :: ts, m =>
      match ptStep tus m t with
      | .error e => .error e
      | .ok m' => ptGo tus ts m'

/-- `Processor._process_tokens`. -/
def processTokens (tus : List Tok) : Except PyErr IgnRegistry :=
  ptGo tus tus []

/-- The clang type kinds that the traversal guard inspects. -/
inductive TyKind where
  | record
  | enumTy
  | otherTy
deriving DecidableEq

/-- The per-node data of an AST cursor relevant to the traversal: a node
identity (to speak about the same declaration reachable along two paths),
the cursor kind, the kind of the canonical underlying typedef type, and
whether the node is in the main file. -/
structure CInfo where
  id : Nat
  kind : CursorKind
  underlyingCanonicalKind : TyKind
  mainFile : Bool
deriving DecidableEq

/-- An AST cursor with its children, as walked by `Processor._process`. -/
inductive CTree where
  | node (info : CInfo) (children : List CTree)

/-- The recursion guard of `Processor._process`: a typedef whose
canonical underlying type is a record or an enum is not recursed into. -/
def cutoffNode (i : CInfo) : Bool :=
  i.kind == .typedefDecl
    && (i.underlyingCanonicalKind == .record || i.underlyingCanonicalKind == .enumTy)

mutual
/-- The sequence of nodes on which `Processor._process` invokes
`_process_node`, in visit order: the node itself first, then its children
unless the typedef guard cuts the recursion. -/
def visitedList : CTree → List CInfo
  | .node i cs => i :: (if cutoffNode i then [] else visitedChildren cs)
def visitedChildren : List CTree → List CInfo
  | [] => []
  | c :: cs => visitedList c ++ visitedChildren cs
end

mutual
/-- All node occurrences of a tree, each paired with whether some proper
ancestor of the occurrence is a cut-off typedef. -/
def occsUnder : CTree → Bool → List (CInfo × Bool)
  | .node i cs, under => (i, under) :: occsUnderL cs (under || cutoffNode i)
def occsUnderL : List CTree → Bool → List (CInfo × Bool)
  | [], _ => []
  | c :: cs, under => occsUnder c under ++ occsUnderL cs under
end

/-! ### Claim C6: pointer-level selector semantics -/

/-- C6: for every declaration with a computed pointer depth `d`, a rule
whose pointer field is the boolean `true` applies exactly when `1 ≤ d`,
and a rule whose pointer field is the integer `n` applies exactly when
`d = n`, all other selectors being absent (hence equal). -/
theorem pointer_selector_semantics (decl : Decl) (configKind : String)
    (visibility : Option String) (r : PRule) (d : Nat)
    (hd : pointerLevelOf decl = some d)
    (hk : r.kinds = none) (ht : r.types = none) (hv : r.visibility = none)
    (hp : r.parentMatch = none) :
    (r.pointer = some (.pbool true) →
      (ruleApplies decl r configKind visibility (pointerLevelOf decl)).1 = decide (1 ≤ d))
    ∧ (∀ n : Int, r.pointer = some (.pint n) →
      (ruleApplies decl r configKind visibility (pointerLevelOf decl)).1
        = decide ((d : Int) = n)) := by
  rw [hd]
  constructor
  · intro hpt
    cases visibility <;>
      · simp only [ruleApplies, ruleChecks, hk, ht, hv, hp, hpt, pointerOk]
        cases d <;> simp
  · intro n hpt
    cases visibility <;>
      · simp only [ruleApplies, ruleChecks, hk, ht, hv, hp, hpt, pointerOk,
          Option.isSome_none, Bool.false_and, Bool.and_false, Bool.not_false,
          Bool.and_true, Bool.true_and]
        by_cases h : n = (d : Int)
        · simp [h]
        · have h' : ¬ ((d : Int) = n) := fun e => h e.symm
          simp [h, h']

def c6decl : Decl :=
  { kind := .varDecl, spelling := "pp", typeSpelling := "int **",
    ctype := .ptr (.ptr .nonPtr), underlyingCanonical := .nonPtr, file := "t.c", line := 1,
    parentSpelling := "", parentAnonymous := false }

def c6rule : PRule :=
  { name := "ptr", kinds := none, visibility := none, types := none,
    pointer := some (.pbool true), parentMatch := none, pfx := none, sfx := none,
    bodyRule := some (.lit "pp"), allowRule := none }

/-- Witness for C6 at a depth-2 pointer variable. -/
theorem pointer_selector_semantics_witness :
    (ruleApplies c6decl c6rule "variable" none (pointerLevelOf c6decl)).1 = decide (1 ≤ 2) :=
  (pointer_selector_semantics c6decl "variable" none c6rule 2 rfl rfl rfl rfl rfl).1 rfl

/-! ### Claim C4: rule records are mutated by kind-alias expansion -/

/-- Helper: the alias-expansion loop is the identity on a kinds list that
contains no group alias. -/
theorem kindLoop_no_alias (fuel : Nat) (l : List String) (i : Nat)
    (h : ∀ k ∈ l, KIND_EXPANSION.lookup k = none) : kindLoop fuel l i = l := by
  induction fuel generalizing i with
  | zero => rfl
  | succ fuel ih =>
      unfold kindLoop
      match hg : l.get? i with
      | none => simp [hg]
      | some x =>
          have hx : x ∈ l := List.get?_mem hg
          simp [hg, h x hx, ih]

/-- C4 (amended): evaluating applicability returns the stored rule
unchanged when its kinds list contains no group alias; when the list does
contain an alias, the stored rule is permanently rewritten (see the
counterexample). -/
theorem rule_applies_no_alias_frame (decl : Decl) (r : PRule) (configKind : String)
    (visibility : Option String) (pointerLevel : Option Nat) (ks : List String)
    (hk : r.kinds = some ks) (h : ∀ k ∈ ks, KIND_EXPANSION.lookup k = none) :
    (ruleApplies decl r configKind visibility pointerLevel).2 = r := by
  have he : expandKinds ks = ks := kindLoop_no_alias _ ks 0 h
  unfold ruleApplies
  rw [hk]
  simp only [he]
  have hr : ({ r with kinds := some ks } : PRule) = r := by
    cases r
    simp only at hk
    rw [← hk]
  split <;> simpa using hr

def c4decl : Decl :=
  { kind := .structDecl, spelling := "Foo", typeSpelling := "struct Foo",
    ctype := .nonPtr, underlyingCanonical := .nonPtr, file := "t.c", line := 1,
    parentSpelling := "", parentAnonymous := false }

def c4rule : PRule :=
  { name := "tagrule", kinds := some ["tag"], visibility := none,
    types := none, pointer := none, parentMatch := none, pfx := none, sfx := none,
    bodyRule := some casePascal, allowRule := none }

/-- Counterexample to C4 as stated: one applicability test on a rule with
the kind-group alias `tag` leaves the stored rule's kinds list permanently
expanded, so the rule set observed afterwards differs from the loaded
one. -/
theorem rule_applies_mutates_kinds :
    (ruleApplies c4decl c4rule "struct_tag" none none).2.kinds
        = some ["struct_tag", "enum_tag", "union_tag"]
      ∧ c4rule.kinds = some ["tag"]
      ∧ (ruleApplies c4decl c4rule "struct_tag" none none).2.kinds ≠ c4rule.kinds := by
  refine ⟨rfl, rfl, ?_⟩
  decide

/-- Witness for the amended C4 on an alias-free rule. -/
theorem rule_applies_no_alias_frame_witness :
    (ruleApplies c4decl { c4rule with kinds := some ["struct_tag"] } "struct_tag" none
        none).2 = { c4rule with kinds := some ["struct_tag"] } :=
  rule_applies_no_alias_frame c4decl _ "struct_tag" none none ["struct_tag"] rfl
    (by intro k hk; simp at hk; subst hk; rfl)

/-! ### Claim C7: configuration-load failure conditions -/

/-- Helper: whether a section misses all four of
rule/allow-rule/prefix/suffix or has both rule and allow-rule. -/
def tailViolates (s : RawSection) : Bool :=
  ((s.get "rule").isNone && (s.get "allow-rule").isNone && (s.get "prefix").isNone
      && (s.get "suffix").isNone)
  || ((s.get "rule").isSome && (s.get "allow-rule").isSome)

/-- Helper: `loadSectionTail` errs exactly on a missing-rule or
both-rules violation, for any parsed pointer value. -/
theorem loadSectionTail_isErr (s : RawSection) (ptr : Option PtrSpec) :
    isLoadErr (loadSectionTail s ptr) = tailViolates s := by
  unfold loadSectionTail tailViolates
  by_cases h1 : s.get "rule" = none ∧ s.get "allow-rule" = none
      ∧ s.get "prefix" = none ∧ s.get "suffix" = none
  · obtain ⟨a, b, c, d⟩ := h1
    simp [a, b, c, d, isLoadErr]
  · rw [if_neg h1]
    by_cases h2 : s.get "rule" ≠ none ∧ s.get "allow-rule" ≠ none
    · obtain ⟨a, b⟩ := h2
      rw [if_pos ⟨a, b⟩]
      have a' : (s.get "rule").isSome = true := Option.isSome_iff_ne_none.mpr a
      have b' : (s.get "allow-rule").isSome = true := Option.isSome_iff_ne_none.mpr b
      simp [a', b', isLoadErr]
    · rw [if_neg h2]
      simp only [isLoadErr]
      symm
      rw [not_and_or] at h2
      rw [Bool.or_eq_false_iff]
      constructor
      · by_contra hA
        rw [Bool.not_eq_false] at hA
        apply h1
        simp only [Bool.and_eq_true, Option.isNone_iff_eq_none] at hA
        exact ⟨hA.1.1.1, hA.1.1.2, hA.1.2, hA.2⟩
      · by_contra hB
        rw [Bool.not_eq_false, Bool.and_eq_true] at hB
        rcases h2 with h2 | h2 <;>
          simp [Option.isSome_iff_ne_none] at hB <;> tauto

/-- Helper: `getPointer` errs exactly on a present pointer value that is
neither a Python integer nor a boolean token. -/
theorem getPointer_isErr (s : RawSection) :
    isLoadErr (getPointer s)
      = (match s.get "pointer" with
         | some v => (pyParseInt v).isNone && (BOOLEAN_STATES.lookup (lowerStr v)).isNone
         | none => false) := by
  unfold getPointer
  cases hp : s.get "pointer" with
  | none => rfl
  | some v =>
      cases hi : pyParseInt v with
      | some n => simp [hi, isLoadErr]
      | none =>
          cases hb : BOOLEAN_STATES.lookup (lowerStr v) with
          | some b => simp [hi, hb, isLoadErr]
          | none => simp [hi, hb, isLoadErr]

/-- Helper: a section is rejected by `loadSection` exactly when it
violates one of the three load-time constraints. -/
theorem loadSection_isErr (s : RawSection) :
    isLoadErr (loadSection s) = sectionViolates s := by
  have hV : sectionViolates s
      = ((match s.get "pointer" with
          | some v => (pyParseInt v).isNone && (BOOLEAN_STATES.lookup (lowerStr v)).isNone
          | none => false)
         || tailViolates s) := by
    unfold sectionViolates tailViolates
    cases s.get "pointer" <;> simp [Bool.or_assoc]
  rw [hV, ← getPointer_isErr]
  unfold loadSection
  cases hg : getPointer s with
  | error e =>
      simp [isLoadErr]
  | ok ptr =>
      show isLoadErr (loadSectionTail s ptr) = (isLoadErr (Except.ok ptr) || tailViolates s)
      rw [loadSectionTail_isErr]
      simp [isLoadErr]

/-- Helper: the loading loop fails exactly when some non-`placeholders`
section violates a constraint. -/
theorem loadGo_isErr (l : List RawSection) (acc : List RawRule)
    (ph : List (String × String)) :
    isLoadErr (loadGo l acc ph)
      = l.any (fun s => !(s.name == "placeholders") && sectionViolates s) := by
  induction l generalizing acc ph with
  | nil => rfl
  | cons s rest ih =>
      unfold loadGo
      by_cases hn : s.name = "placeholders"
      · simp [hn, ih]
      · have hb : (s.name == "placeholders") = false := by
          simp [hn]
        cases hs : loadSection s with
        | error e =>
            have : sectionViolates s = true := by
              rw [← loadSection_isErr, hs]; rfl
            simp [hb, hs, isLoadErr, this]
        | ok r =>
            have : sectionViolates s = false := by
              rw [← loadSection_isErr, hs]; rfl
            simp [hb, hs, ih, this]

/-- Helper: a rule produced by `loadSection` satisfies the load-time
constraints. -/
theorem loadSection_ok_constraints (s : RawSection) (r : RawRule)
    (h : loadSection s = .ok r) : ruleConstraintsOk r = true := by
  unfold loadSection at h
  split at h
  · cases h
  · unfold loadSectionTail at h
    split at h
    · cases h
    · split at h
      · cases h
      · rename_i h1 h2
        injection h with h
        subst h
        unfold ruleConstraintsOk
        simp only [Bool.and_eq_true, Bool.or_eq_true, Bool.not_eq_true']
        have conv : ∀ o : Option String, o.isSome = false → o = none := by
          intro o ho
          cases o with
          | none => rfl
          | some x => simp at ho
        constructor
        · by_contra hc
          simp only [not_or, Bool.not_eq_true] at hc
          obtain ⟨⟨⟨ha, hb⟩, hcp⟩, hd⟩ := hc
          exact h1 ⟨conv _ ha, conv _ hb, conv _ hcp, conv _ hd⟩
        · by_contra hc
          rw [Bool.not_eq_false, Bool.and_eq_true] at hc
          exact h2 ⟨Option.isSome_iff_ne_none.mp hc.1, Option.isSome_iff_ne_none.mp hc.2⟩

/-- Helper: every rule in a successfully loaded rule set satisfies the
constraints, provided the accumulator already does. -/
theorem loadGo_ok_constraints (l : List RawSection) (acc : List RawRule)
    (ph : List (String × String)) (rs : RawRuleSet)
    (hacc : ∀ r ∈ acc, ruleConstraintsOk r = true)
    (h : loadGo l acc ph = .ok rs) : ∀ r ∈ rs.rules, ruleConstraintsOk r = true := by
  induction l generalizing acc ph with
  | nil =>
      unfold loadGo at h
      injection h with h
      subst h
      intro r hr
      rw [List.mem_reverse] at hr
      exact hacc r hr
  | cons s rest ih =>
      unfold loadGo at h
      by_cases hn : s.name = "placeholders"
      · rw [if_pos (by simp [hn])] at h
        exact ih _ _ hacc h
      · rw [if_neg (by simp [hn])] at h
        cases hs : loadSection s with
        | error e => rw [hs] at h; cases h
        | ok r =>
            rw [hs] at h
            refine ih _ _ ?_ h
            intro r' hr'
            rcases List.mem_cons.mp hr' with hr' | hr'
            · subst hr'; exact loadSection_ok_constraints s r' hs
            · exact hacc r' hr'

/-- Helper: whenever `getPointer` fails, the error is a `notABoolean`. -/
theorem getPointer_err_shape (s : RawSection) (e : LoadErr)
    (h : getPointer s = .error e) : ∃ v, e = .notABoolean v := by
  unfold getPointer at h
  split at h
  · cases h
  · split at h
    · cases h
    · split at h
      · cases h
      · injection h with h
        exact ⟨_, h.symm⟩

/-- Helper: a missing-rule or both-rules error of `loadSection` names
the section it came from. -/
theorem loadSection_err_names (s : RawSection) (e : LoadErr) (n : String)
    (hs : loadSection s = .error e) (he : e = .noRule n ∨ e = .bothRules n) :
    s.name = n := by
  unfold loadSection at hs
  split at hs
  · rename_i e' heq
    injection hs with hs
    subst hs
    obtain ⟨v, hv⟩ := getPointer_err_shape s e' heq
    subst hv
    rcases he with he | he <;> simp at he
  · unfold loadSectionTail at hs
    split at hs
    · injection hs with hs
      rcases he with he | he <;> rw [he] at hs
      · injection hs
      · simp at hs
    · split at hs
      · injection hs with hs
        rcases he with he | he <;> rw [he] at hs
        · simp at hs
        · injection hs
      · cases hs

/-- Helper: a missing-rule or both-rules load error names a section of
the input. -/
theorem loadGo_err_names (l : List RawSection) (acc : List RawRule)
    (ph : List (String × String)) (n : String)
    (h : loadGo l acc ph = .error (.noRule n) ∨ loadGo l acc ph = .error (.bothRules n)) :
    ∃ s ∈ l, s.name = n := by
  induction l generalizing acc ph with
  | nil =>
      exfalso
      rcases h with h | h <;> (unfold loadGo at h; cases h)
  | cons s rest ih =>
      by_cases hn : s.name = "placeholders"
      · unfold loadGo at h
        rw [if_pos (by simp [hn])] at h
        obtain ⟨s', hs', he⟩ := ih _ _ h
        exact ⟨s', List.mem_cons_of_mem _ hs', he⟩
      · unfold loadGo at h
        rw [if_neg (by simp [hn])] at h
        cases hs : loadSection s with
        | error e =>
            rw [hs] at h
            have he : e = .noRule n ∨ e = .bothRules n := by
              rcases h with h | h <;> (injection h with h; simp [h])
            exact ⟨s, List.mem_cons_self s rest, loadSection_err_names s e n hs he⟩
        | ok r =>
            rw [hs] at h
            obtain ⟨s', hs', he⟩ := ih _ _ h
            exact ⟨s', List.mem_cons_of_mem _ hs', he⟩

/-- C7 (amended): loading fails exactly when some non-`placeholders`
section lacks all of rule/allow-rule/prefix/suffix, has both rule and
allow-rule, or has a pointer value that is neither an integer nor a
boolean token; a missing-rule or both-rules failure names a section of
the configuration, and on success every loaded rule satisfies the
constraints.  (The pointer failure, by contrast, is a bare
`Not a boolean` value error that does not name the section: see the
counterexample.) -/
theorem load_error_characterisation (sections : List RawSection) :
    (isLoadErr (load sections)
       = sections.any (fun s => !(s.name == "placeholders") && sectionViolates s))
    ∧ (∀ rs, load sections = .ok rs → ∀ r ∈ rs.rules, ruleConstraintsOk r = true)
    ∧ (∀ n, (load sections = .error (.noRule n) ∨ load sections = .error (.bothRules n)) →
        ∃ s ∈ sections, s.name = n) := by
  refine ⟨loadGo_isErr sections [] [], ?_, ?_⟩
  · intro rs h
    exact loadGo_ok_constraints sections [] [] rs (by intro r hr; cases hr) h
  · intro n h
    exact loadGo_err_names sections [] [] n h

def c7badCfg : List RawSection :=
  [{ name := "s", fields := [("rule", "x"), ("pointer", "maybe")] }]

/-- Counterexample to C7 as stated: a section whose pointer field is
neither a boolean token nor an integer makes the load fail with the
`Not a boolean` value error escaping from `getboolean`, which does not
name the offending section. -/
theorem load_pointer_error_does_not_name_section :
    load c7badCfg = .error (.notABoolean "maybe")
      ∧ LoadErr.namesSection (.notABoolean "maybe") "s" = false := ⟨rfl, rfl⟩

def c7okCfg : List RawSection := [{ name := "g", fields := [("rule", "x")] }]

def c7okRule : RawRule :=
  { name := "g", kinds := none, visibility := none, types := none, pointer := none,
    parentMatch := none, pfx := none, sfx := none, rule := some "x", allowRule := none }

/-- Witness for the amended C7 on a well-formed one-section
configuration. -/
theorem load_error_characterisation_witness :
    ruleConstraintsOk c7okRule = true :=
  (load_error_characterisation c7okCfg).2.1
    { rules := [c7okRule], placeholders := [] } rfl c7okRule (List.mem_cons_self _ _)

/-! ### Claim C2: suppression by ignore comments and the used flag -/

/-- Helper: with an ignore comment present, the affix test never changes
`success` or the diagnostics (a failure only marks the comment used). -/
theorem testAffixRules_present_state (ctx : Ctx) (vars : List (String × Regex))
    (l : List PRule) (isPfx : Bool) (st : AffixSt) :
    ((testAffixRules ctx vars true l isPfx st).2).success = st.success
    ∧ ((testAffixRules ctx vars true l isPfx st).2).diags = st.diags := by
  unfold testAffixRules
  cases l with
  | nil => exact ⟨rfl, rfl⟩
  | cons r rs =>
      cases hm : (if isPfx then pfxSearchEnd (expandedAffix ctx vars isPfx (r :: rs)) st.nws
                  else sfxSearchStart (expandedAffix ctx vars isPfx (r :: rs)) st.nws) with
      | none => simp [hm]
      | some idx => simp [hm]

/-- Helper: with an ignore comment present, the affix phase keeps the
initial `success = some true`. -/
theorem affixStage_present_success (ctx : Ctx) (vars : List (String × Regex))
    (rule : PRule) (pfxRules sfxRules : List PRule) (name : String) :
    (affixStage ctx vars true rule pfxRules sfxRules name).success = some true := by
  unfold affixStage
  split
  · split
    · rw [(testAffixRules_present_state _ _ _ _ _).1,
        (testAffixRules_present_state _ _ _ _ _).1]
    · rw [(testAffixRules_present_state _ _ _ _ _).1]
  · split
    · rw [(testAffixRules_present_state _ _ _ _ _).1]
    · rfl

/-- Helper: with an ignore comment present, the affix phase prints no
diagnostics. -/
theorem affixStage_present_diags (ctx : Ctx) (vars : List (String × Regex))
    (rule : PRule) (pfxRules sfxRules : List PRule) (name : String) :
    (affixStage ctx vars true rule pfxRules sfxRules name).diags = [] := by
  unfold affixStage
  split
  · split
    · rw [(testAffixRules_present_state _ _ _ _ _).2,
        (testAffixRules_present_state _ _ _ _ _).2]
    · rw [(testAffixRules_present_state _ _ _ _ _).2]
  · split
    · rw [(testAffixRules_present_state _ _ _ _ _).2]
    · rfl

/-- Helper: with an ignore comment present, the body phase changes
neither `success` nor the diagnostics. -/
theorem bodyStage_present_state (hb : Bool) (n : String) (m : Bool) (st : AffixSt) :
    (bodyStage true hb n m st).success = st.success
    ∧ (bodyStage true hb n m st).diags = st.diags := by
  unfold bodyStage
  cases m with
  | true => exact ⟨rfl, rfl⟩
  | false => exact ⟨rfl, rfl⟩

/-- Helper: the body phase marks the ignore comment used exactly when the
full match failed with a comment present, on top of any affix-phase
marking. -/
theorem bodyStage_marked (ip hb : Bool) (n : String) (m : Bool) (st : AffixSt) :
    (bodyStage ip hb n m st).marked = (st.marked || (!m && ip)) := by
  unfold bodyStage
  cases m with
  | true => simp
  | false =>
      cases ip with
      | true => simp
      | false =>
          cases hb with
          | true => simp
          | false => simp

/-- Helper: with no ignore comment, an affix test never marks. -/
theorem testAffixRules_absent_marked (ctx : Ctx) (vars : List (String × Regex))
    (l : List PRule) (isPfx : Bool) (st : AffixSt) :
    ((testAffixRules ctx vars false l isPfx st).2).marked = st.marked := by
  unfold testAffixRules
  cases l with
  | nil => rfl
  | cons r rs =>
      cases hm : (if isPfx then pfxSearchEnd (expandedAffix ctx vars isPfx (r :: rs)) st.nws
                  else sfxSearchStart (expandedAffix ctx vars isPfx (r :: rs)) st.nws) with
      | none => simp [hm]
      | some idx => simp [hm]

/-- Helper: with no ignore comment, the affix phase never marks. -/
theorem affixStage_absent_marked (ctx : Ctx) (vars : List (String × Regex))
    (rule : PRule) (pfxRules sfxRules : List PRule) (name : String) :
    (affixStage ctx vars false rule pfxRules sfxRules name).marked = false := by
  unfold affixStage
  split
  · split
    · rw [testAffixRules_absent_marked, testAffixRules_absent_marked]
    · rw [testAffixRules_absent_marked]
  · split
    · rw [testAffixRules_absent_marked]
    · rfl

/-- C2 (amended): a failing affix or body/allow pattern is suppressed if
and only if an ignore comment registered for the declaration's file:line
exists — regardless of its used flag, which the evaluation never
consults, only sets.  With a comment present the verdict is a pass with
no diagnostics, and the registry entry's used flag is set exactly when an
affix test or the final full match failed; with no comment the registry
is returned untouched and a failing full match can never yield the pass
verdict. -/
theorem ignore_suppression_characterisation (ctx : Ctx) (decl : Decl) (rule : PRule)
    (pfxRules sfxRules : List PRule) (vars vars' : List (String × Regex))
    (ign : IgnoreMap) (ruleText : Regex) (res : TRResult)
    (hpv : parentVars decl rule vars = .ok vars')
    (hor : pyOrPat rule.bodyRule rule.allowRule = some ruleText)
    (h : testRule ctx decl rule pfxRules sfxRules vars ign = .ok res) :
    ((ignoreLookup ign decl.ignoreKey).isSome = true →
      res.verdict = some true ∧ res.diags = []
      ∧ res.ign =
          (if (affixStage ctx vars true rule pfxRules sfxRules decl.spelling).marked
              || !(reFullmatch (subPlaceholders ctx ruleText vars')
                    (affixStage ctx vars true rule pfxRules sfxRules decl.spelling).nws)
           then setUsed ign decl.ignoreKey else ign))
    ∧ ((ignoreLookup ign decl.ignoreKey).isSome = false →
      res.ign = ign
      ∧ (reFullmatch (subPlaceholders ctx ruleText vars')
           (affixStage ctx vars false rule pfxRules sfxRules decl.spelling).nws = false →
         res.verdict ≠ some true)) := by
  unfold testRule at h
  rw [hpv] at h
  rw [hor] at h
  cases hp : (ignoreLookup ign decl.ignoreKey).isSome with
  | true =>
      rw [hp] at h
      injection h with h
      subst h
      constructor
      · intro _
        refine ⟨?_, ?_, ?_⟩
        · exact ((bodyStage_present_state _ _ _ _).1).trans
            (affixStage_present_success ctx vars rule pfxRules sfxRules decl.spelling)
        · exact ((bodyStage_present_state _ _ _ _).2).trans
            (affixStage_present_diags ctx vars rule pfxRules sfxRules decl.spelling)
        · show (if (bodyStage true rule.bodyRule.isSome rule.name
                (reFullmatch (subPlaceholders ctx ruleText vars')
                  (affixStage ctx vars true rule pfxRules sfxRules decl.spelling).nws)
                (affixStage ctx vars true rule pfxRules sfxRules decl.spelling)).marked
              then setUsed ign decl.ignoreKey else ign)
            = (if (affixStage ctx vars true rule pfxRules sfxRules decl.spelling).marked
                  || !(reFullmatch (subPlaceholders ctx ruleText vars')
                        (affixStage ctx vars true rule pfxRules sfxRules decl.spelling).nws)
               then setUsed ign decl.ignoreKey else ign)
          rw [bodyStage_marked]
          simp only [Bool.and_true]
      · intro hF
        exact Bool.noConfusion hF
  | false =>
      rw [hp] at h
      injection h with h
      subst h
      constructor
      · intro hT
        exact Bool.noConfusion hT
      · intro _
        refine ⟨?_, ?_⟩
        · show (if (bodyStage false rule.bodyRule.isSome rule.name
                (reFullmatch (subPlaceholders ctx ruleText vars')
                  (affixStage ctx vars false rule pfxRules sfxRules decl.spelling).nws)
                (affixStage ctx vars false rule pfxRules sfxRules decl.spelling)).marked
              then setUsed ign decl.ignoreKey else ign) = ign
          rw [bodyStage_marked, affixStage_absent_marked]
          simp
        · intro hM
          show (bodyStage false rule.bodyRule.isSome rule.name
              (reFullmatch (subPlaceholders ctx ruleText vars')
                (affixStage ctx vars false rule pfxRules sfxRules decl.spelling).nws)
              (affixStage ctx vars false rule pfxRules sfxRules decl.spelling)).success
            ≠ some true
          rw [hM]
          unfold bodyStage
          simp only [Bool.false_eq_true, if_false]
          split
          · simp
          · simp

def c2decl : Decl :=
  { kind := .varDecl, spelling := "x", typeSpelling := "int", ctype := .nonPtr,
    underlyingCanonical := .nonPtr, file := "t.c", line := 5, parentSpelling := "",
    parentAnonymous := false }

def c2rule : PRule :=
  { name := "body", kinds := none, visibility := none, types := none, pointer := none,
    parentMatch := none, pfx := none, sfx := none, bodyRule := some (.lit "yy"),
    allowRule := none }

def ctx0 : Ctx := { placeholders := [] }

/-- Counterexample to C2 as stated: an ignore comment whose used flag is
already true still suppresses a later failing required rule (`"x"` does
not match the body pattern `yy`, yet the verdict is `True` and the map is
unchanged), where the claim demands the failure verdict. -/
theorem used_ignore_comment_still_suppresses :
    testRule ctx0 c2decl c2rule [] [] (baseVars c2decl) [(("t.c", 5), true)]
        = .ok { verdict := some true, ign := [(("t.c", 5), true)], diags := [],
                vars := baseVars c2decl }
      ∧ reFullmatch (.lit "yy") c2decl.spelling = false := ⟨rfl, rfl⟩

/-- Witness for the amended C2: the already-used comment suppresses the
failing required rule — the verdict is a pass, nothing is printed, and the
registry entry is (re-)marked used. -/
theorem ignore_suppression_characterisation_witness :
    ({ verdict := some true, ign := [(("t.c", 5), true)], diags := [],
       vars := baseVars c2decl } : TRResult).verdict = some true
    ∧ ({ verdict := some true, ign := [(("t.c", 5), true)], diags := [],
         vars := baseVars c2decl } : TRResult).diags = []
    ∧ ({ verdict := some true, ign := [(("t.c", 5), true)], diags := [],
         vars := baseVars c2decl } : TRResult).ign =
        (if (affixStage ctx0 (baseVars c2decl) true c2rule [] [] c2decl.spelling).marked
            || !(reFullmatch (subPlaceholders ctx0 (.lit "yy") (baseVars c2decl))
                  (affixStage ctx0 (baseVars c2decl) true c2rule [] [] c2decl.spelling).nws)
         then setUsed [(("t.c", 5), true)] c2decl.ignoreKey else [(("t.c", 5), true)]) :=
  (ignore_suppression_characterisation ctx0 c2decl c2rule [] [] (baseVars c2decl)
    (baseVars c2decl) [(("t.c", 5), true)] (.lit "yy")
    { verdict := some true, ign := [(("t.c", 5), true)], diags := [],
      vars := baseVars c2decl } rfl rfl rfl).1 rfl

/-! ### Claim C3: rules with only affixes are never tested -/

/-- Helper: `_rule_applies` mutates only the kinds list of the stored
rule; every other field is preserved. -/
theorem ruleApplies_preserves (decl : Decl) (r : PRule) (k : String)
    (v : Option String) (p : Option Nat) :
    (ruleApplies decl r k v p).2.bodyRule = r.bodyRule
    ∧ (ruleApplies decl r k v p).2.allowRule = r.allowRule
    ∧ (ruleApplies decl r k v p).2.pfx = r.pfx
    ∧ (ruleApplies decl r k v p).2.sfx = r.sfx := by
  unfold ruleApplies
  cases hk : r.kinds with
  | none => exact ⟨rfl, rfl, rfl, rfl⟩
  | some ks =>
      simp only [hk]
      split <;> exact ⟨rfl, rfl, rfl, rfl⟩

/-- Helper: the spelling of the declaration plays no role in rule
applicability. -/
theorem ruleApplies_spelling_irrel (decl : Decl) (sp : String) (r : PRule) (k : String)
    (v : Option String) (p : Option Nat) :
    ruleApplies { decl with spelling := sp } r k v p = ruleApplies decl r k v p := rfl

/-- C3: when every selector-matching rule carries neither a body nor an
allow pattern, the rule loop returns a pass verdict with the ignore
registry and diagnostics untouched, for every identifier spelling — the
accumulated affix patterns are never tested at all. -/
theorem affix_only_rules_pass (ctx : Ctx) (decl : Decl) (configKind : String)
    (visibility : Option String) (pointerLevel : Option Nat) (rules : List PRule)
    (hSel : ∀ r ∈ rules, (ruleApplies decl r configKind visibility pointerLevel).1 = true →
      r.bodyRule = none ∧ r.allowRule = none) :
    ∀ (sp : String) (vars : List (String × Regex)) (pfxRules sfxRules acc : List PRule)
      (ign : IgnoreMap) (ds : List Diag),
      ∃ rules', ruleLoop ctx { decl with spelling := sp } configKind visibility pointerLevel
        vars rules pfxRules sfxRules acc ign ds = .ok (true, rules', ign, ds) := by
  induction rules with
  | nil =>
      intro sp vars p s acc ign ds
      exact ⟨acc.reverse, rfl⟩
  | cons r rest ih =>
      intro sp vars p s acc ign ds
      have ihr := ih (fun r' hr' => hSel r' (List.mem_cons_of_mem _ hr'))
      unfold ruleLoop
      rw [ruleApplies_spelling_irrel]
      cases happ : ruleApplies decl r configKind visibility pointerLevel with
      | mk applies r' =>
          cases applies with
          | false =>
              simp only [Bool.false_eq_true, if_false]
              exact ihr sp vars p s (r' :: acc) ign ds
          | true =>
              have hba := hSel r (List.mem_cons_self _ _) (by rw [happ])
              have hpr := ruleApplies_preserves decl r configKind visibility pointerLevel
              rw [happ] at hpr
              have hguard : (r'.bodyRule.isSome || r'.allowRule.isSome) = false := by
                rw [hpr.1, hpr.2.1, hba.1, hba.2]
                rfl
              simp only [if_true, hguard, Bool.false_eq_true, if_false]
              exact ihr sp vars _ _ (r' :: acc) ign ds

def c3decl : Decl :=
  { kind := .varDecl, spelling := "anything", typeSpelling := "int", ctype := .nonPtr,
    underlyingCanonical := .nonPtr, file := "t.c", line := 2, parentSpelling := "",
    parentAnonymous := false }

def c3rule : PRule :=
  { name := "pfxonly", kinds := none, visibility := none, types := none, pointer := none,
    parentMatch := none, pfx := some (.lit "P_"), sfx := none, bodyRule := none,
    allowRule := none }

/-- Witness for C3: a single prefix-only rule passes a declaration whose
name lacks the prefix. -/
theorem affix_only_rules_pass_witness :
    ∃ rules', ruleLoop ctx0 { c3decl with spelling := "nope" } "variable" (some "local")
        (some 0) (baseVars c3decl) [c3rule] [] [] [] [] []
      = .ok (true, rules', [], []) :=
  affix_only_rules_pass ctx0 c3decl "variable" (some "local") (some 0) [c3rule]
    (by
      intro r hr happ
      rw [List.mem_singleton] at hr
      subst hr
      exact ⟨rfl, rfl⟩)
    "nope" (baseVars c3decl) [] [] [] [] []

/-! ### Claim C5: a matched allow rule short-circuits the rule loop -/

/-- C5: when a selector-matching rule carries an allow pattern that
full-matches the affix-stripped identifier and no affix failure was
recorded for this rule's test (`st2.success = some true`), the rule loop
stops at that rule with a pass verdict; the remaining rules `rest` are
returned unevaluated, exactly as for a matched body rule. -/
theorem allow_match_short_circuits (ctx : Ctx) (decl : Decl) (configKind : String)
    (visibility : Option String) (pointerLevel : Option Nat) (r r' : PRule)
    (pfxRules sfxRules : List PRule) (vars vars' : List (String × Regex))
    (ign : IgnoreMap) (a : Regex) (st2 : AffixSt)
    (hApp : ruleApplies decl r configKind visibility pointerLevel = (true, r'))
    (hBody : r'.bodyRule = none) (hAllow : r'.allowRule = some a)
    (hst : affixStage ctx vars ((ignoreLookup ign decl.ignoreKey).isSome) r'
        (appendAffixRules r' pfxRules sfxRules).1
        (appendAffixRules r' pfxRules sfxRules).2 decl.spelling = st2)
    (hpv : parentVars decl r' vars = .ok vars')
    (hMatch : reFullmatch (subPlaceholders ctx a vars') st2.nws = true)
    (hNoFail : st2.success = some true) :
    ∀ (rest acc : List PRule) (ds : List Diag),
      ruleLoop ctx decl configKind visibility pointerLevel vars (r :: rest)
        pfxRules sfxRules acc ign ds
      = .ok (true, acc.reverse ++ r' :: rest,
             if st2.marked then setUsed ign decl.ignoreKey else ign,
             ds ++ st2.diags) := by
  intro rest acc ds
  unfold ruleLoop
  rw [hApp]
  cases hap : appendAffixRules r' pfxRules sfxRules with
  | mk p' s' =>
      rw [hap] at hst
      have hst' : affixStage ctx vars (ignoreLookup ign decl.ignoreKey).isSome r' p' s'
          decl.spelling = st2 := by simpa using hst
      have hguard : (r'.bodyRule.isSome || r'.allowRule.isSome) = true := by
        rw [hAllow]
        simp
      have htr : testRule ctx decl r' p' s' vars ign
          = .ok { verdict := st2.success,
                  ign := if st2.marked then setUsed ign decl.ignoreKey else ign,
                  diags := st2.diags, vars := vars' } := by
        unfold testRule
        simp only [hst', hpv, hBody, hAllow, pyOrPat, bodyStage, hMatch, if_true]
      simp only [hap, hguard, htr, hNoFail, if_true]

def c5decl : Decl :=
  { kind := .varDecl, spelling := "x", typeSpelling := "int", ctype := .nonPtr,
    underlyingCanonical := .nonPtr, file := "t.c", line := 9, parentSpelling := "",
    parentAnonymous := false }

def c5allow : PRule :=
  { name := "allowx", kinds := none, visibility := none, types := none, pointer := none,
    parentMatch := none, pfx := none, sfx := none, bodyRule := none,
    allowRule := some (.lit "x") }

def c5later : PRule :=
  { name := "required", kinds := none, visibility := none, types := none, pointer := none,
    parentMatch := none, pfx := none, sfx := none, bodyRule := some (.lit "zz"),
    allowRule := none }

/-- Witness for C5: a matched allow rule passes the declaration and the
later required rule (which the name would fail) is never evaluated. -/
theorem allow_match_short_circuits_witness :
    ruleLoop ctx0 c5decl "variable" (some "local") (some 0) (baseVars c5decl)
        [c5allow, c5later] [] [] [] [] []
      = .ok (true, [c5allow, c5later], [], []) :=
  allow_match_short_circuits ctx0 c5decl "variable" (some "local") (some 0)
    c5allow c5allow [] [] (baseVars c5decl) (baseVars c5decl) [] (.lit "x")
    { nws := "x", success := some true, marked := false, diags := [] }
    rfl rfl rfl rfl rfl rfl rfl [c5later] [] []

/-! ### Claim C8: an explicitly empty affix field -/

/-- C8 (amended): a rule whose prefix (suffix) field is the explicit
empty string contributes no fragment to the compound prefix (suffix)
accumulation, and when that rule's own body or allow pattern is evaluated
the accumulated compound prefix (suffix, per the distinct gate at line
298) is skipped entirely — the test behaves exactly as if no prefix
(suffix) rules had accumulated; the accumulation itself is passed on
unchanged to later rules. -/
theorem empty_affix_skips_compound (ctx : Ctx) (decl : Decl) (rule : PRule)
    (pfxRules sfxRules : List PRule) (vars : List (String × Regex)) (ign : IgnoreMap) :
    (rule.pfx = some Regex.eps →
      testRule ctx decl rule pfxRules sfxRules vars ign
        = testRule ctx decl { rule with pfx := none } [] sfxRules vars ign
      ∧ (appendAffixRules rule pfxRules sfxRules).1 = pfxRules)
    ∧ (rule.sfx = some Regex.eps →
      testRule ctx decl rule pfxRules sfxRules vars ign
        = testRule ctx decl { rule with sfx := none } pfxRules [] vars ign
      ∧ (appendAffixRules rule pfxRules sfxRules).2 = sfxRules) := by
  constructor
  · intro h
    constructor
    · unfold testRule
      have e1 : affixStage ctx vars ((ignoreLookup ign decl.ignoreKey).isSome) rule
            pfxRules sfxRules decl.spelling
          = affixStage ctx vars ((ignoreLookup ign decl.ignoreKey).isSome)
              { rule with pfx := none } [] sfxRules decl.spelling := by
        unfold affixStage
        rw [h]
        simp [testAffixRules]
      simp only [e1]
      rfl
    · unfold appendAffixRules
      rw [h]
      simp
  · intro h
    constructor
    · unfold testRule
      have e1 : affixStage ctx vars ((ignoreLookup ign decl.ignoreKey).isSome) rule
            pfxRules sfxRules decl.spelling
          = affixStage ctx vars ((ignoreLookup ign decl.ignoreKey).isSome)
              { rule with sfx := none } pfxRules [] decl.spelling := by
        unfold affixStage
        rw [h]
        simp [testAffixRules]
      simp only [e1]
      rfl
    · unfold appendAffixRules
      rw [h]
      simp

def c8decl : Decl :=
  { kind := .varDecl, spelling := "x", typeSpelling := "int", ctype := .nonPtr,
    underlyingCanonical := .nonPtr, file := "t.c", line := 7, parentSpelling := "",
    parentAnonymous := false }

def c8pfxRule : PRule :=
  { name := "addpfx", kinds := none, visibility := none, types := none, pointer := none,
    parentMatch := none, pfx := some (.lit "P_"), sfx := none, bodyRule := none,
    allowRule := none }

def c8bodyRule : PRule :=
  { name := "checkbody", kinds := none, visibility := none, types := none, pointer := none,
    parentMatch := none, pfx := some .eps, sfx := none, bodyRule := some (.lit "x"),
    allowRule := none }

/-- Counterexample to C8 as stated: with an accumulated compound prefix
`P_` and a body rule opting out via an empty prefix field, the identifier
`x` — which the compound prefix does not match — passes with no failure
recorded, so the accumulated pattern was not tested during that rule's
evaluation. -/
theorem empty_affix_counterexample :
    verdictOf (processNodeCore ctx0 [c8pfxRule, c8bodyRule] c8decl "variable"
        (some "local") []) = some true
      ∧ pfxSearchEnd (.lit "P_") c8decl.spelling = none
      ∧ diagsOf (processNodeCore ctx0 [c8pfxRule, c8bodyRule] c8decl "variable"
          (some "local") []) = [] := ⟨rfl, rfl, rfl⟩

def c8sfxRule : PRule :=
  { name := "addsfx", kinds := none, visibility := none, types := none, pointer := none,
    parentMatch := none, pfx := none, sfx := some (.lit "_t"), bodyRule := none,
    allowRule := none }

def c8sfxBodyRule : PRule :=
  { name := "checksfxbody", kinds := none, visibility := none, types := none,
    pointer := none, parentMatch := none, pfx := none, sfx := some .eps,
    bodyRule := some (.lit "x"), allowRule := none }

/-- Witness for the amended C8, exercising both the prefix and the suffix
gate. -/
theorem empty_affix_skips_compound_witness :
    (testRule ctx0 c8decl c8bodyRule [c8pfxRule] [] (baseVars c8decl) []
      = testRule ctx0 c8decl { c8bodyRule with pfx := none } [] [] (baseVars c8decl) [])
    ∧ (testRule ctx0 c8decl c8sfxBodyRule [] [c8sfxRule] (baseVars c8decl) []
      = testRule ctx0 c8decl { c8sfxBodyRule with sfx := none } [] [] (baseVars c8decl) []) :=
  ⟨((empty_affix_skips_compound ctx0 c8decl c8bodyRule [c8pfxRule] [] (baseVars c8decl)
      []).1 rfl).1,
   ((empty_affix_skips_compound ctx0 c8decl c8sfxBodyRule [] [c8sfxRule] (baseVars c8decl)
      []).2 rfl).1⟩

/-! ### Claim C1: affix failures and the final verdict -/

/-- Helper: with no ignore comment, an affix test keeps a recorded
failure (`success = some false`), never marks, and only appends
diagnostics. -/
theorem testAffixRules_absent_failure_sticks (ctx : Ctx) (vars : List (String × Regex))
    (l : List PRule) (isPfx : Bool) (st : AffixSt)
    (hs : st.success = some false) (hm : st.marked = false) :
    ((testAffixRules ctx vars false l isPfx st).2).success = some false
    ∧ ((testAffixRules ctx vars false l isPfx st).2).marked = false
    ∧ ∀ d ∈ st.diags, d ∈ ((testAffixRules ctx vars false l isPfx st).2).diags := by
  unfold testAffixRules
  cases l with
  | nil => exact ⟨hs, hm, fun d hd => hd⟩
  | cons r rs =>
      cases hmm : (if isPfx then pfxSearchEnd (expandedAffix ctx vars isPfx (r :: rs)) st.nws
                   else sfxSearchStart (expandedAffix ctx vars isPfx (r :: rs)) st.nws) with
      | none =>
          refine ⟨by simp [hmm], by simp [hmm, hm], ?_⟩
          intro d hd
          simp only [hmm]
          simp only [Bool.false_eq_true, if_false, List.mem_append]
          exact Or.inl hd
      | some idx =>
          refine ⟨by simp [hmm, hs], by simp [hmm, hm], ?_⟩
          intro d hd
          simp only [hmm]
          exact hd

/-- Helper: with no ignore comment and a required (body) rule, the body
phase keeps a recorded failure, never marks, and only appends
diagnostics. -/
theorem bodyStage_absent_body_failure_sticks (n : String) (m : Bool) (st : AffixSt)
    (hs : st.success = some false) :
    (bodyStage false true n m st).success = some false
    ∧ (bodyStage false true n m st).marked = st.marked
    ∧ ∀ d ∈ st.diags, d ∈ (bodyStage false true n m st).diags := by
  unfold bodyStage
  cases m with
  | true => exact ⟨hs, rfl, fun d hd => hd⟩
  | false =>
      refine ⟨by simp, by simp, ?_⟩
      intro d hd
      simp only [Bool.false_eq_true, if_false, eq_self_iff_true, if_true, List.mem_append]
      exact Or.inl hd

/-- Helper: `test_affix_rules` on an empty affix list returns the state
unchanged. -/
theorem testAffixRules_nil (ctx : Ctx) (vars : List (String × Regex)) (ip : Bool)
    (isPfx : Bool) (st : AffixSt) :
    testAffixRules ctx vars ip [] isPfx st = (none, st) := rfl

/-- Helper: when the suffix gate is open, the affix phase is the suffix
test applied to the state left by the prefix phase (which equals the
affix phase run with no suffix rules). -/
theorem affixStage_split (ctx : Ctx) (vars : List (String × Regex)) (ip : Bool)
    (rule : PRule) (pfxRules sfxRules : List PRule) (name : String)
    (hs : rule.sfx ≠ some Regex.eps) :
    affixStage ctx vars ip rule pfxRules sfxRules name
      = (testAffixRules ctx vars ip sfxRules false
          (affixStage ctx vars ip rule pfxRules [] name)).2 := by
  simp only [affixStage, ne_eq, hs, not_false_eq_true, if_true, testAffixRules_nil]

/-- Helper: when the affix phase has recorded a failure (`success =
False`, nothing marked) with no ignore comment and the rule carries a
required (body) pattern, `_test_rule` returns the failure verdict with
the registry untouched, and the rule loop stops at that rule with a
failing node verdict. -/
theorem testRule_affix_failure_core (ctx : Ctx) (decl : Decl) (configKind : String)
    (visibility : Option String) (pointerLevel : Option Nat) (rule : PRule)
    (pfxRules sfxRules : List PRule) (vars vars' : List (String × Regex)) (ign : IgnoreMap)
    (p : Regex) (D : Diag)
    (hAbsent : ignoreLookup ign decl.ignoreKey = none)
    (hBody : rule.bodyRule = some p) (hpne : p ≠ Regex.eps)
    (hGuard : parentVars decl rule vars = .ok vars')
    (hS : (affixStage ctx vars false rule pfxRules sfxRules decl.spelling).success
      = some false)
    (hMk : (affixStage ctx vars false rule pfxRules sfxRules decl.spelling).marked = false)
    (hD : D ∈ (affixStage ctx vars false rule pfxRules sfxRules decl.spelling).diags) :
    ∃ ds, (testRule ctx decl rule pfxRules sfxRules vars ign
        = .ok { verdict := some false, ign := ign, diags := ds, vars := vars' })
      ∧ D ∈ ds
      ∧ ∀ (r0 : PRule) (rest acc : List PRule) (ds0 : List Diag) (pfx0 sfx0 : List PRule),
          ruleApplies decl r0 configKind visibility pointerLevel = (true, rule) →
          appendAffixRules rule pfx0 sfx0 = (pfxRules, sfxRules) →
          ruleLoop ctx decl configKind visibility pointerLevel vars (r0 :: rest)
            pfx0 sfx0 acc ign ds0
            = .ok (false, acc.reverse ++ rule :: rest, ign, ds0 ++ ds) := by
  have hip : ((ignoreLookup ign decl.ignoreKey).isSome) = false := by
    rw [hAbsent]
    rfl
  have hbodyTrue : rule.bodyRule.isSome = true := by rw [hBody]; rfl
  have hor : pyOrPat rule.bodyRule rule.allowRule = some p := by
    rw [hBody]
    show (if p = Regex.eps then rule.allowRule else some p) = some p
    rw [if_neg hpne]
  have h3 := bodyStage_absent_body_failure_sticks rule.name
    (reFullmatch (subPlaceholders ctx p vars')
      (affixStage ctx vars false rule pfxRules sfxRules decl.spelling).nws)
    (affixStage ctx vars false rule pfxRules sfxRules decl.spelling) hS
  refine ⟨(bodyStage false true rule.name
      (reFullmatch (subPlaceholders ctx p vars')
        (affixStage ctx vars false rule pfxRules sfxRules decl.spelling).nws)
      (affixStage ctx vars false rule pfxRules sfxRules decl.spelling)).diags, ?_, ?_, ?_⟩
  · unfold testRule
    simp only [hip, hGuard, hor, hbodyTrue]
    rw [h3.1]
    have hmk : (bodyStage false true rule.name
        (reFullmatch (subPlaceholders ctx p vars')
          (affixStage ctx vars false rule pfxRules sfxRules decl.spelling).nws)
        (affixStage ctx vars false rule pfxRules sfxRules decl.spelling)).marked = false := by
      rw [h3.2.1, hMk]
    rw [hmk]
    simp
  · exact h3.2.2 _ hD
  · intro r0 rest acc ds0 pfx0 sfx0 happ hap
    unfold ruleLoop
    have hguard : (rule.bodyRule.isSome || rule.allowRule.isSome) = true := by
      rw [hbodyTrue]
      rfl
    have htr : testRule ctx decl rule pfxRules sfxRules vars ign
        = .ok { verdict := some false, ign := ign,
                diags := (bodyStage false true rule.name
                  (reFullmatch (subPlaceholders ctx p vars')
                    (affixStage ctx vars false rule pfxRules sfxRules decl.spelling).nws)
                  (affixStage ctx vars false rule pfxRules sfxRules decl.spelling)).diags,
                vars := vars' } := by
      unfold testRule
      simp only [hip, hGuard, hor, hbodyTrue]
      rw [h3.1]
      have hmk : (bodyStage false true rule.name
          (reFullmatch (subPlaceholders ctx p vars')
            (affixStage ctx vars false rule pfxRules sfxRules decl.spelling).nws)
          (affixStage ctx vars false rule pfxRules sfxRules decl.spelling)).marked
          = false := by
        rw [h3.2.1, hMk]
      rw [hmk]
      simp
    simp only [happ, hap, hguard, htr, if_true]

/-- C1 (amended): for a declaration with no applicable ignore comment
whose compound prefix pattern fails to match at the start of the name, or
whose compound suffix pattern fails to match anywhere in the name left by
the prefix phase, a failure is recorded and, when the rule carries a body
(required) pattern, the declaration's final verdict is failure — the body
pattern is still evaluated but cannot turn the verdict back into a pass.
(When the rule instead carries an allow pattern that also fails to match,
the recorded affix failure is discarded and evaluation continues: see the
counterexample.) -/
theorem required_affix_failure_fails (ctx : Ctx) (decl : Decl) (configKind : String)
    (visibility : Option String) (pointerLevel : Option Nat) (rule : PRule)
    (pfxRules sfxRules : List PRule) (vars vars' : List (String × Regex)) (ign : IgnoreMap)
    (p : Regex)
    (hAbsent : ignoreLookup ign decl.ignoreKey = none)
    (hBody : rule.bodyRule = some p) (hpne : p ≠ Regex.eps)
    (hGuard : parentVars decl rule vars = .ok vars')
    (hFail : (rule.pfx ≠ some Regex.eps ∧ pfxRules ≠ []
        ∧ pfxSearchEnd (expandedAffix ctx vars true pfxRules) decl.spelling = none)
      ∨ (rule.sfx ≠ some Regex.eps ∧ sfxRules ≠ []
        ∧ sfxSearchStart (expandedAffix ctx vars false sfxRules)
            (affixStage ctx vars false rule pfxRules [] decl.spelling).nws = none)) :
    ∃ ds, (testRule ctx decl rule pfxRules sfxRules vars ign
        = .ok { verdict := some false, ign := ign, diags := ds, vars := vars' })
      ∧ (Diag.missingAffix true (pfxRules.map (fun r => r.name)) ∈ ds
        ∨ Diag.missingAffix false (sfxRules.map (fun r => r.name)) ∈ ds)
      ∧ ∀ (r0 : PRule) (rest acc : List PRule) (ds0 : List Diag) (pfx0 sfx0 : List PRule),
          ruleApplies decl r0 configKind visibility pointerLevel = (true, rule) →
          appendAffixRules rule pfx0 sfx0 = (pfxRules, sfxRules) →
          ruleLoop ctx decl configKind visibility pointerLevel vars (r0 :: rest)
            pfx0 sfx0 acc ign ds0
            = .ok (false, acc.reverse ++ rule :: rest, ign, ds0 ++ ds) := by
  rcases hFail with ⟨hPfxNe, hne, hf⟩ | ⟨hSfxNe, hne, hf⟩
  · obtain ⟨q, qs, hqq⟩ := List.exists_cons_of_ne_nil hne
    subst hqq
    have h1 : (testAffixRules ctx vars false (q :: qs) true
        { nws := decl.spelling, success := some true, marked := false, diags := [] }).2
        = { nws := decl.spelling, success := some false, marked := false,
            diags := [Diag.missingAffix true ((q :: qs).map (fun r => r.name))] } := by
      unfold testAffixRules
      simp only [if_true]
      rw [hf]
      rfl
    have h2 : (affixStage ctx vars false rule (q :: qs) sfxRules decl.spelling).success
          = some false
        ∧ (affixStage ctx vars false rule (q :: qs) sfxRules decl.spelling).marked = false
        ∧ Diag.missingAffix true ((q :: qs).map (fun r => r.name))
            ∈ (affixStage ctx vars false rule (q :: qs) sfxRules decl.spelling).diags := by
      simp only [affixStage, ne_eq, hPfxNe, not_false_eq_true, if_true, h1]
      split
      · have hsk := testAffixRules_absent_failure_sticks ctx vars sfxRules false
          { nws := decl.spelling, success := some false, marked := false,
            diags := [Diag.missingAffix true ((q :: qs).map (fun r => r.name))] } rfl rfl
        exact ⟨hsk.1, hsk.2.1, hsk.2.2 _ (by simp)⟩
      · exact ⟨rfl, rfl, by simp⟩
    obtain ⟨ds, hds, hmem, hloop⟩ := testRule_affix_failure_core ctx decl configKind
      visibility pointerLevel rule (q :: qs) sfxRules vars vars' ign p
      (Diag.missingAffix true ((q :: qs).map (fun r => r.name)))
      hAbsent hBody hpne hGuard h2.1 h2.2.1 h2.2.2
    exact ⟨ds, hds, Or.inl hmem, hloop⟩
  · obtain ⟨q, qs, hqq⟩ := List.exists_cons_of_ne_nil hne
    subst hqq
    have h1 : (testAffixRules ctx vars false (q :: qs) false
        (affixStage ctx vars false rule pfxRules [] decl.spelling)).2
        = { affixStage ctx vars false rule pfxRules [] decl.spelling with
            success := some false,
            diags := (affixStage ctx vars false rule pfxRules [] decl.spelling).diags
              ++ [Diag.missingAffix false ((q :: qs).map (fun r => r.name))] } := by
      unfold testAffixRules
      simp only [Bool.false_eq_true, if_false]
      rw [hf]
    have h2 : (affixStage ctx vars false rule pfxRules (q :: qs) decl.spelling).success
          = some false
        ∧ (affixStage ctx vars false rule pfxRules (q :: qs) decl.spelling).marked = false
        ∧ Diag.missingAffix false ((q :: qs).map (fun r => r.name))
            ∈ (affixStage ctx vars false rule pfxRules (q :: qs) decl.spelling).diags := by
      rw [affixStage_split ctx vars false rule pfxRules (q :: qs) decl.spelling hSfxNe, h1]
      refine ⟨rfl, ?_, by simp⟩
      exact affixStage_absent_marked ctx vars rule pfxRules [] decl.spelling
    obtain ⟨ds, hds, hmem, hloop⟩ := testRule_affix_failure_core ctx decl configKind
      visibility pointerLevel rule pfxRules (q :: qs) vars vars' ign p
      (Diag.missingAffix false ((q :: qs).map (fun r => r.name)))
      hAbsent hBody hpne hGuard h2.1 h2.2.1 h2.2.2
    exact ⟨ds, hds, Or.inr hmem, hloop⟩

def c1decl : Decl :=
  { kind := .varDecl, spelling := "y", typeSpelling := "int", ctype := .nonPtr,
    underlyingCanonical := .nonPtr, file := "t.c", line := 3, parentSpelling := "",
    parentAnonymous := false }

def c1rule : PRule :=
  { name := "aff", kinds := none, visibility := none, types := none, pointer := none,
    parentMatch := none, pfx := some (.lit "P"), sfx := none, bodyRule := none,
    allowRule := some (.lit "x") }

/-- Counterexample to C1 as stated: the compound prefix `P` fails on `y`
with no ignore comment, the failure is recorded (the `missing prefix`
diagnostic is printed), but the rule's allow pattern also fails, which
overwrites the recorded failure with `None`; the loop continues past the
rule and the declaration's final verdict is a pass. -/
theorem affix_failure_lost_by_allow_rule :
    verdictOf (processNodeCore ctx0 [c1rule] c1decl "variable" (some "local") [])
        = some true
      ∧ diagsOf (processNodeCore ctx0 [c1rule] c1decl "variable" (some "local") [])
          = [Diag.missingAffix true ["aff"]]
      ∧ pfxSearchEnd (.lit "P") c1decl.spelling = none
      ∧ ignoreLookup [] c1decl.ignoreKey = none := ⟨rfl, rfl, rfl, rfl⟩

def c1bodyRule : PRule :=
  { name := "req", kinds := none, visibility := none, types := none, pointer := none,
    parentMatch := none, pfx := some (.lit "P"), sfx := none, bodyRule := some (.lit "y"),
    allowRule := none }

/-- Witness for the amended C1: a required rule behind a failing compound
prefix yields the failure verdict even though its body pattern matches
the unstripped name. -/
theorem required_affix_failure_fails_witness :
    ∃ ds, (testRule ctx0 c1decl c1bodyRule [c1bodyRule] [] (baseVars c1decl) []
        = .ok { verdict := some false, ign := [], diags := ds, vars := baseVars c1decl })
      ∧ (Diag.missingAffix true ["req"] ∈ ds ∨ Diag.missingAffix false [] ∈ ds)
      ∧ ∀ (r0 : PRule) (rest acc : List PRule) (ds0 : List Diag) (pfx0 sfx0 : List PRule),
          ruleApplies c1decl r0 "variable" (some "local") (some 0) = (true, c1bodyRule) →
          appendAffixRules c1bodyRule pfx0 sfx0 = ([c1bodyRule], []) →
          ruleLoop ctx0 c1decl "variable" (some "local") (some 0) (baseVars c1decl)
            (r0 :: rest) pfx0 sfx0 acc [] ds0
            = .ok (false, acc.reverse ++ c1bodyRule :: rest, [], ds0 ++ ds) :=
  required_affix_failure_fails ctx0 c1decl "variable" (some "local") (some 0)
    c1bodyRule [c1bodyRule] [] (baseVars c1decl) (baseVars c1decl) [] (.lit "y")
    rfl rfl (by simp) rfl
    (Or.inl ⟨by simp [c1bodyRule], List.cons_ne_nil _ _, rfl⟩)

/-! ### Claim C10: typedef children are not revisited -/

mutual
/-- Helper: every occurrence below a cut-off ancestor is flagged. -/
theorem occsUnder_true_all : ∀ (c : CTree), ∀ p ∈ occsUnder c true, p.2 = true
  | .node i cs => by
      intro p hp
      unfold occsUnder at hp
      rw [Bool.true_or] at hp
      rcases List.mem_cons.mp hp with h | h
      · rw [h]
      · exact occsUnderL_true_all cs p h
/-- Helper: list version of `occsUnder_true_all`. -/
theorem occsUnderL_true_all : ∀ (cs : List CTree), ∀ p ∈ occsUnderL cs true, p.2 = true
  | [] => by
      intro p hp
      cases hp
  | c :: cs => by
      intro p hp
      unfold occsUnderL at hp
      rcases List.mem_append.mp hp with h | h
      · exact occsUnder_true_all c p h
      · exact occsUnderL_true_all cs p h
end

/-- Helper: a list whose entries are all flagged filters to nothing. -/
theorem filter_unflagged_nil (l : List (CInfo × Bool)) (h : ∀ p ∈ l, p.2 = true) :
    l.filter (fun p => !p.2) = [] := by
  induction l with
  | nil => rfl
  | cons p ps ih =>
      rw [List.filter_cons]
      rw [h p (List.mem_cons_self _ _)]
      simp only [Bool.not_true, Bool.false_eq_true, if_false]
      exact ih (fun q hq => h q (List.mem_cons_of_mem _ hq))

mutual
/-- Helper: the nodes visited by `_process` are exactly the occurrences
with no cut-off proper ancestor. -/
theorem visited_eq_occs : ∀ (c : CTree),
    visitedList c = ((occsUnder c false).filter (fun p => !p.2)).map Prod.fst
  | .node i cs => by
      unfold visitedList occsUnder
      rw [Bool.false_or]
      cases hc : cutoffNode i with
      | true =>
          simp only [if_true]
          rw [List.filter_cons]
          simp only [Bool.not_false, if_true]
          rw [filter_unflagged_nil _ (occsUnderL_true_all cs)]
          rfl
      | false =>
          simp only [Bool.false_eq_true, if_false]
          rw [List.filter_cons]
          simp only [Bool.not_false, if_true]
          rw [List.map_cons]
          rw [visitedChildren_eq_occs cs]
/-- Helper: list version of `visited_eq_occs`. -/
theorem visitedChildren_eq_occs : ∀ (cs : List CTree),
    visitedChildren cs = ((occsUnderL cs false).filter (fun p => !p.2)).map Prod.fst
  | [] => rfl
  | c :: cs => by
      unfold visitedChildren occsUnderL
      rw [List.filter_append, List.map_append, visited_eq_occs c,
        visitedChildren_eq_occs cs]
end

/-- C10: if a node identity has exactly one occurrence in the AST that is
not inside the subtree of a typedef whose canonical underlying type is a
record or enum (the clang shape for a typedef of a tagged type: the
members' second occurrences all sit under the typedef), then the
traversal invokes the node evaluation on it exactly once over the whole
walk. -/
theorem member_visited_once (root : CTree) (i : Nat)
    (h : ((occsUnder root false).filter (fun p => !p.2 && p.1.id == i)).length = 1) :
    ((visitedList root).filter (fun inf => inf.id == i)).length = 1 := by
  rw [visited_eq_occs]
  rw [List.filter_map]
  rw [List.length_map]
  rw [List.filter_filter]
  rw [← h]
  congr 1
  apply List.filter_congr
  intro a _
  show ((a.1.id == i) && !a.2) = (!a.2 && (a.1.id == i))
  rw [Bool.and_comm]

def c10member : CInfo :=
  { id := 7, kind := .fieldDecl, underlyingCanonicalKind := .otherTy, mainFile := true }

def c10tag : CInfo :=
  { id := 1, kind := .structDecl, underlyingCanonicalKind := .otherTy, mainFile := true }

def c10td : CInfo :=
  { id := 2, kind := .typedefDecl, underlyingCanonicalKind := .record, mainFile := true }

/-- The clang AST shape for `typedef struct { ... } T;`: the tag (with its
member) appears at the top level and again under the typedef. -/
def c10root : CTree :=
  .node { id := 0, kind := .translationUnit, underlyingCanonicalKind := .otherTy,
          mainFile := true }
    [.node c10tag [.node c10member []],
     .node c10td [.node c10tag [.node c10member []]]]

/-- Witness for C10: the member node (id 7) occurs twice in the tree but
is evaluated exactly once. -/
theorem member_visited_once_witness :
    ((visitedList c10root).filter (fun inf => inf.id == 7)).length = 1 :=
  member_visited_once c10root 7 (by decide)

/-! ### Claim C9: keying of suppression comments -/

/-- Strict source-position order on tokens (line, then column). -/
def posLt (a b : Tok) : Prop :=
  a.line < b.line ∨ (a.line = b.line ∧ a.column < b.column)

/-- Helper: when nothing precedes the comment on its own line, the first
token at or after the start of the line is the comment itself. -/
theorem find?_self_of_first (tus : List Tok) (c : Tok)
    (hsort : tus.Pairwise posLt)
    (hc : c ∈ tus)
    (hnop : ∀ t ∈ tus, ¬(t.line = c.line ∧ t.column < c.column)) :
    tus.find? (fun t => t.file == c.file && c.line ≤ t.line) = some c := by
  induction tus with
  | nil => cases hc
  | cons h ts ih =>
      rcases List.mem_cons.mp hc with rfl | hc'
      · rw [List.find?_cons_of_pos]
        simp
      · have hlt : posLt h c := (List.pairwise_cons.mp hsort).1 c hc'
        have hline : h.line < c.line := by
          rcases hlt with hl | ⟨he, hcol⟩
          · exact hl
          · exact absurd ⟨he, hcol⟩ (hnop h (List.mem_cons_self _ _))
        rw [List.find?_cons_of_neg]
        · exact ih (List.pairwise_cons.mp hsort).2 hc'
            (fun t ht => hnop t (List.mem_cons_of_mem _ ht))
        · simp [Nat.not_le.mpr hline]

/-- Helper: when some token precedes the comment on its line, the first
token at or after the start of the line lies strictly before the comment
on the same line. -/
theorem find?_before_of_preceding (tus : List Tok) (c t0 : Tok)
    (hsort : tus.Pairwise posLt)
    (hfile : ∀ t ∈ tus, t.file = c.file)
    (hc : c ∈ tus) (ht0 : t0 ∈ tus)
    (hprec : t0.line = c.line ∧ t0.column < c.column) :
    ∃ b, tus.find? (fun t => t.file == c.file && c.line ≤ t.line) = some b
      ∧ b.line = c.line ∧ b.column < c.column := by
  induction tus with
  | nil => cases hc
  | cons h ts ih =>
      have hcne : c ≠ t0 := by
        intro e
        rw [e] at hprec
        exact Nat.lt_irrefl _ hprec.2
      by_cases hh : (h.file == c.file && decide (c.line ≤ h.line)) = true
      · refine ⟨h, List.find?_cons_of_pos _ hh, ?_⟩
        have hhline : c.line ≤ h.line := by
          rw [Bool.and_eq_true] at hh
          exact of_decide_eq_true hh.2
        rcases List.mem_cons.mp hc with rfl | hc'
        · -- h = c: impossible, t0 would have to come later yet precede c
          exfalso
          have ht0' : t0 ∈ ts := by
            rcases List.mem_cons.mp ht0 with e | e
            · exact absurd e.symm hcne
            · exact e
          have : posLt c t0 := (List.pairwise_cons.mp hsort).1 t0 ht0'
          rcases this with hl | ⟨he, hcol⟩
          · rw [hprec.1] at hl
            exact absurd hl (Nat.lt_irrefl _)
          · exact absurd (Nat.lt_trans hcol hprec.2) (Nat.lt_irrefl _)
        · have : posLt h c := (List.pairwise_cons.mp hsort).1 c hc'
          rcases this with hl | ⟨he, hcol⟩
          · exact absurd hhline (Nat.not_le.mpr hl)
          · exact ⟨he, hcol⟩
      · have hcm : c ∈ ts := by
          rcases List.mem_cons.mp hc with rfl | hc'
          · exfalso
            apply hh
            simp
          · exact hc'
        have ht0' : t0 ∈ ts := by
          rcases List.mem_cons.mp ht0 with rfl | e
          · exfalso
            apply hh
            have : t0.file = c.file := hfile t0 ht0
            rw [this, hprec.1]
            simp
          · exact e
        rw [List.find?_cons_of_neg]
        · exact ih (List.pairwise_cons.mp hsort).2
            (fun t ht => hfile t (List.mem_cons_of_mem _ ht)) hcm ht0'
        · exact hh

/-- Helper: the keying rule of the token pre-pass — the following line
when nothing precedes the comment on its own line, its own line
otherwise. -/
theorem ignoreKeyLine_characterisation (tus : List Tok) (c : Tok)
    (hsort : tus.Pairwise posLt)
    (hfile : ∀ t ∈ tus, t.file = c.file)
    (hc : c ∈ tus) :
    ignoreKeyLine tus c
      = if ∃ t ∈ tus, t.line = c.line ∧ t.column < c.column
        then c.line else c.line + 1 := by
  by_cases hex : ∃ t ∈ tus, t.line = c.line ∧ t.column < c.column
  · rw [if_pos hex]
    obtain ⟨t0, ht0, hprec⟩ := hex
    obtain ⟨b, hb, hbl, hbc⟩ := find?_before_of_preceding tus c t0 hsort hfile hc ht0 hprec
    unfold ignoreKeyLine tokensBefore
    rw [hb]
    have hext : extentEq b c = false := by
      unfold extentEq
      have : (b.column == c.column) = false := by
        simp only [beq_eq_false_iff_ne, ne_eq]
        exact Nat.ne_of_lt hbc
      rw [this]
      simp
    simp [hext]
  · rw [if_neg hex]
    have hnop : ∀ t ∈ tus, ¬(t.line = c.line ∧ t.column < c.column) := by
      intro t ht hcontra
      exact hex ⟨t, ht, hcontra⟩
    have hfind := find?_self_of_first tus c hsort hc hnop
    unfold ignoreKeyLine tokensBefore
    rw [hfind]
    have hext : extentEq c c = true := by
      unfold extentEq
      simp
    simp [hext]

/-- Helper: replacing every entry keyed `k` in an association list that
contains one leaves `k` present. -/
theorem lookup_map_replace {β : Type} (k : String × Nat) (v : β) :
    ∀ (m : List ((String × Nat) × β)), (∃ p ∈ m, (p.1 == k) = true) →
    (((m.map (fun p => if p.1 == k then (k, v) else p)).lookup k)).isSome = true := by
  intro m
  induction m with
  | nil =>
      rintro ⟨p, hp, _⟩
      cases hp
  | cons q qs ih =>
      rintro ⟨p, hp, hpk⟩
      rw [List.map_cons]
      by_cases hq : (q.1 == k) = true
      · rw [if_pos hq]
        simp [List.lookup]
      · rw [if_neg hq]
        have hqne : q.1 ≠ k := by
          intro e
          exact hq (by simp [e])
        have hkq : (k == q.1) = false := by
          simp only [beq_eq_false_iff_ne, ne_eq]
          exact fun e => hqne e.symm
        obtain ⟨q1, q2⟩ := q
        simp only [List.lookup, hkq]
        apply ih
        rcases List.mem_cons.mp hp with rfl | hp'
        · exact absurd hpk hq
        · exact ⟨p, hp', hpk⟩

/-- Helper: appending an entry keyed `k` makes `k` present. -/
theorem lookup_append_self {β : Type} (k : String × Nat) (v : β) :
    ∀ (m : List ((String × Nat) × β)), (((m ++ [(k, v)]).lookup k)).isSome = true := by
  intro m
  induction m with
  | nil => simp [List.lookup]
  | cons q qs ih =>
      obtain ⟨q1, q2⟩ := q
      by_cases hq : (k == q1) = true
      · simp [List.lookup, hq]
      · rw [List.cons_append]
        simp only [List.lookup, Bool.not_eq_true] at hq ⊢
        rw [hq]
        exact ih

/-- Helper: after `insertReplace m k v`, the key `k` is present. -/
theorem lookup_insertReplace_self {β : Type} (m : List ((String × Nat) × β))
    (k : String × Nat) (v : β) : (((insertReplace m k v).lookup k)).isSome = true := by
  unfold insertReplace
  split
  · rename_i ha
    rw [List.any_eq_true] at ha
    exact lookup_map_replace k v m ha
  · exact lookup_append_self k v m

/-- Helper: `insertReplace` never removes a present key. -/
theorem lookup_insertReplace_mono {β : Type} (m : List ((String × Nat) × β))
    (k k' : String × Nat) (v : β) (h : ((m.lookup k)).isSome = true) :
    (((insertReplace m k' v).lookup k)).isSome = true := by
  by_cases he : k = k'
  · subst he
    exact lookup_insertReplace_self m k v
  · unfold insertReplace
    split
    · rename_i ha
      clear ha
      induction m with
      | nil => simp [List.lookup] at h
      | cons q qs ih =>
          obtain ⟨q1, q2⟩ := q
          rw [List.map_cons]
          by_cases hq : (k == q1) = true
          · have hkq : k = q1 := by simpa using hq
            by_cases hq' : (q1 == k') = true
            · have : q1 = k' := by simpa using hq'
              exact absurd (hkq.trans this) he
            · rw [if_neg hq']
              simp [List.lookup, hq]
          · have h' : ((qs.lookup k)).isSome = true := by
              simp only [List.lookup, hq] at h
              simpa using h
            by_cases hq' : (q1 == k') = true
            · rw [if_pos hq']
              have hkk' : (k == k') = false := by
                simp only [beq_eq_false_iff_ne, ne_eq]
                exact he
              simp only [List.lookup, hkk']
              exact ih h'
            · rw [if_neg hq']
              simp only [List.lookup, hq]
              exact ih h'
    · rename_i ha
      clear ha
      induction m with
      | nil => simp [List.lookup] at h
      | cons q qs ih =>
          obtain ⟨q1, q2⟩ := q
          rw [List.cons_append]
          by_cases hq : (k == q1) = true
          · simp [List.lookup, hq]
          · have h' : ((qs.lookup k)).isSome = true := by
              simp only [List.lookup, hq] at h
              simpa using h
            simp only [List.lookup, hq]
            exact ih h'

/-- Helper: a completing pre-pass step never removes a present key. -/
theorem ptStep_ok_mono (tus : List Tok) (m m' : IgnRegistry) (t : Tok) (k : String × Nat)
    (hstep : ptStep tus m t = .ok m')
    (h : ((m.lookup k)).isSome = true) : ((m'.lookup k)).isSome = true := by
  unfold ptStep at hstep
  split at hstep
  · split at hstep
    · cases hstep
    · split at hstep
      · injection hstep with hstep
        subst hstep
        exact lookup_insertReplace_mono m k _ _ h
      · injection hstep with hstep
        subst hstep
        exact h
    · injection hstep with hstep
      subst hstep
      exact h
  · injection hstep with hstep
    subst hstep
    exact h

/-- Helper: a completing pre-pass loop never removes a present key. -/
theorem ptGo_mono (tus : List Tok) (k : String × Nat) :
    ∀ (l : List Tok) (m reg : IgnRegistry), ptGo tus l m = .ok reg →
      ((m.lookup k)).isSome = true → ((reg.lookup k)).isSome = true := by
  intro l
  induction l with
  | nil =>
      intro m reg hgo h
      unfold ptGo at hgo
      injection hgo with hgo
      subst hgo
      exact h
  | cons t ts ih =>
      intro m reg hgo h
      unfold ptGo at hgo
      split at hgo
      · cases hgo
      · rename_i m' hstep
        exact ih m' reg hgo (ptStep_ok_mono tus m m' t k hstep h)

/-- Helper: a completing token pre-pass registers every `ignore` comment
under its computed key. -/
theorem processTokens_registers (tus : List Tok) (c : Tok) (hc : c ∈ tus)
    (hk : (c.kind == TokKind.comment) = true)
    (hd : commentDirective c.spelling = .ok (some "ignore"))
    (reg : IgnRegistry) (hok : processTokens tus = .ok reg) :
    ((reg.lookup (c.file, ignoreKeyLine tus c))).isSome = true := by
  unfold processTokens at hok
  suffices H : ∀ (l : List Tok) (m reg : IgnRegistry), c ∈ l →
      ptGo tus l m = .ok reg →
      ((reg.lookup (c.file, ignoreKeyLine tus c))).isSome = true by
    exact H tus [] reg hc hok
  intro l
  induction l with
  | nil =>
      intro m reg h _
      cases h
  | cons t ts ih =>
      intro m reg hm hgo
      unfold ptGo at hgo
      rcases List.mem_cons.mp hm with rfl | h'
      · have hstep : ptStep tus m c
            = .ok (insertReplace m (c.file, ignoreKeyLine tus c)
                    { tok := c, used := false }) := by
          unfold ptStep
          rw [hk]
          simp only [if_true, hd]
          have hbeq : (("ignore" : String) == "ignore") = true := by simp
          rw [hbeq]
          simp only [if_true]
        simp only [hstep] at hgo
        exact ptGo_mono tus _ ts _ reg hgo (lookup_insertReplace_self m _ _)
      · split at hgo
        · cases hgo
        · rename_i m' hstep
          exact ih m' reg h' hgo

/-- C9: in a token stream in strict source order within one file and for
which the pre-pass completes (no comment aborts it with the
`AttributeError` of an empty directive), every comment token matching the
suppression grammar with the `ignore` directive registers an ignore
comment keyed by its own source line when some token precedes it on that
line (a trailing comment), and by the following line otherwise (a
comment first on its own line). -/
theorem suppression_comment_keying (tus : List Tok) (c : Tok)
    (hsort : tus.Pairwise posLt)
    (hfile : ∀ t ∈ tus, t.file = c.file)
    (hc : c ∈ tus) (hk : c.kind = .comment)
    (hd : commentDirective c.spelling = .ok (some "ignore"))
    (reg : IgnRegistry) (hok : processTokens tus = .ok reg) :
    ((reg.lookup
        (c.file, if ∃ t ∈ tus, t.line = c.line ∧ t.column < c.column
                 then c.line else c.line + 1))).isSome = true := by
  rw [← ignoreKeyLine_characterisation tus c hsort hfile hc]
  exact processTokens_registers tus c hc (by rw [hk]; rfl) hd reg hok

def c9code : Tok :=
  { kind := .otherTok, spelling := "int", file := "t.c", line := 2, column := 1,
    endLine := 2, endColumn := 4 }

def c9comment : Tok :=
  { kind := .comment, spelling := "// c-name-style ignore", file := "t.c", line := 2,
    column := 10, endLine := 2, endColumn := 32 }

def c9badComment : Tok :=
  { kind := .comment, spelling := "// c-name-style ", file := "t.c", line := 1,
    column := 1, endLine := 1, endColumn := 17 }

/-- Counterexample to C9 as stated: a line comment whose directive text
is empty fullmatches `_COMMENT_REGEX` with an empty first group, so line
441 evaluates `("" or None).strip()` and the pre-pass aborts with an
uncaught `AttributeError` — a suppression comment later in the same
stream registers nothing, because the run dies first. -/
theorem empty_directive_comment_aborts_prepass :
    processTokens [c9badComment, c9code, c9comment] = .error .attributeError
    ∧ commentDirective c9comment.spelling = .ok (some "ignore") := ⟨rfl, rfl⟩

/-- Witness for C9: a trailing suppression comment after code on the same
line is keyed by its own line. -/
theorem suppression_comment_keying_witness :
    ((([((("t.c" : String), (2 : Nat)), { tok := c9comment, used := false })] : IgnRegistry).lookup
        (c9comment.file,
         if ∃ t ∈ [c9code, c9comment], t.line = c9comment.line ∧ t.column < c9comment.column
         then c9comment.line else c9comment.line + 1))).isSome = true :=
  suppression_comment_keying [c9code, c9comment] c9comment
    (by
      constructor
      · intro t ht
        rw [List.mem_cons] at ht
        rcases ht with rfl | ht
        · exact Or.inr ⟨rfl, by decide⟩
        · cases ht
      · constructor
        · intro t ht
          cases ht
        · constructor)
    (by
      intro t ht
      rcases List.mem_cons.mp ht with rfl | ht
      · rfl
      · rcases List.mem_cons.mp ht with rfl | ht
        · rfl
        · cases ht)
    (by
      rw [List.mem_cons]
      right
      exact List.mem_cons_self _ _)
    rfl rfl
    [((("t.c" : String), (2 : Nat)), { tok := c9comment, used := false })] rfl

end CStyle
